import Mathlib

/-!
Verification of the osmrail repository (an OpenStreetMap railway filter):
a shallow embedding in Lean of the C sources `osm_parse.c`, `osm_planet.c`
and `osmrail.c`, followed by theorems about the embedded functions.

Modelling conventions:
* C strings are `List Char`; the terminating NUL is represented by the end
  of the list (scanning loops that would run past the terminator are
  totalised to stop at the end of the list).
* C `unsigned int` values are `Nat` reduced `% 2^32` where the source can
  overflow; `int` results (the comparator) are `Int`.
* Functions that in C use unbounded loops are written with an explicit
  fuel argument so that they are structurally recursive and evaluate by
  kernel reduction; the fuel chosen by each wrapper is provably sufficient.
-/

/-- Characters accepted by C `isspace` in the default locale. -/
def isSpaceC (c : Char) : Bool :=
  c = ' ' || c = '\t' || c = '\n' || c = '\r' || c = '\x0b' || c = '\x0c'

/-- Character class scanned as an XML tag name by `osm_parse_ingest`:
the C loop runs while `!isspace(*ptr) && *ptr != '/' && *ptr != '>'`. -/
def isNameC (c : Char) : Bool :=
  !(isSpaceC c) && !(c = '/') && !(c = '>')

/-- Model of matching a literal prefix (the literal characters of a
`sscanf` format): returns the rest of the input on success. -/
def matchLit : List Char → List Char → Option (List Char)
  | [], l => some l
  | _ :: _, [] => none
  | c :: p, d :: l => if c = d then matchLit p l else none

/-- Model of C `strstr`: returns the suffix of `l` starting at the first
occurrence of `pat`, or `none`. -/
def findSub (pat : List Char) : List Char → Option (List Char)
  | [] => if pat.isPrefixOf ([] : List Char) then some [] else none
  | c :: r => if pat.isPrefixOf (c :: r) then some (c :: r) else findSub pat r

/-- Whether the attribute text contains the substring "/>", the test
`strstr(ptr, "/>")` used for self-closing feature tags. -/
def selfClosing (l : List Char) : Bool :=
  (findSub ['/', '>'] l).isSome

/-!
Entity codec, from `osm_parse.c` (`deescape_xml`, `read_string`) and
`osmrail.c` (`print_xml`).
-/

/-- Model of `deescape_xml` from `osm_parse.c`.  The input is the text just
past an `&`; the result is the decoded character and the not-yet-consumed
rest of the input (the C function advances the cursor by 0, 3, 4 or 5).
The C switch statement has no `break` after the inner `switch` of the
`'a'` case, so an `'a'` followed by neither `'m'` nor `'p'` falls through
into the `'g'` case; the cases `'g'`, `'l'`, `'q'` inspect only the first
character.  This fall-through and first-character dispatch is modelled
exactly. -/
def deescape_xml (l : List Char) : Char × List Char :=
  match l with
  | 'a' :: 'm' :: _ => ('&', l.drop 4)
  | 'a' :: 'p' :: _ => ('\'', l.drop 5)
  | 'a' :: _ => ('>', l.drop 3)
  | 'g' :: _ => ('>', l.drop 3)
  | 'l' :: _ => ('<', l.drop 3)
  | 'q' :: _ => ('"', l.drop 5)
  | _ => ('&', l)

/-- Fuel-driven worker for `read_string`: decodes characters until a `"`
or until 255 characters (`OSM_TAG_SIZE`) have been stored, de-escaping
after each `&` via `deescape_xml`.  Returns the decoded text and the
input remaining after the terminating quote.  One unit of fuel is spent
per loop iteration of the C `while`; running out of input models the NUL
terminator (the C loop would read past it — we totalise by stopping). -/
def read_string_go : Nat → List Char → Nat → List Char × List Char
  | 0, l, _ => ([], l)
  | _ + 1, [], _ => ([], [])
  | fuel + 1, c :: rest, len =>
    if c = '"' then ([], rest)
    else if 255 ≤ len then ([], rest)
    else if c = '&' then
      let dr := deescape_xml rest
      let sr := read_string_go fuel dr.2 (len + 1)
      (dr.1 :: sr.1, sr.2)
    else
      let sr := read_string_go fuel rest (len + 1)
      (c :: sr.1, sr.2)

/-- Model of `read_string` from `osm_parse.c`; `len` is the count of
characters already stored (the C caller passes a fresh buffer, so 0). -/
def read_string (l : List Char) (len : Nat) : List Char × List Char :=
  read_string_go (l.length + 1) l len

/-- Escaping of one character by `print_xml` in `osmrail.c`; `next` is the
character following `c` (`none` at the end of the string).  A `&`
immediately followed by `#` falls through to `putchar` unescaped. -/
def esc_char (c : Char) (next : Option Char) : List Char :=
  if c = '\'' then ['&', 'a', 'p', 'o', 's', ';']
  else if c = '"' then ['&', 'q', 'u', 'o', 't', ';']
  else if c = '<' then ['&', 'l', 't', ';']
  else if c = '>' then ['&', 'g', 't', ';']
  else if c = '&' then
    if next = some '#' then [c] else ['&', 'a', 'm', 'p', ';']
  else [c]

/-- Model of `print_xml` from `osmrail.c`: the list of characters written
to the output for the given text. -/
def print_xml : List Char → List Char
  | [] => []
  | c :: rest => esc_char c rest.head? ++ print_xml rest

/-!
Decimal digits.  `natToChars` is not part of the C sources: it renders a
feature ID as the decimal text placed in constructed input lines, so that
theorems can quantify over IDs.  `digitsVal` is the value a run of digits
denotes, used by the model of `sscanf` `%u`.
-/

/-- Decimal digit character for `n % 10`. -/
def digitC (n : Nat) : Char :=
  match n with
  | 0 => '0' | 1 => '1' | 2 => '2' | 3 => '3' | 4 => '4'
  | 5 => '5' | 6 => '6' | 7 => '7' | 8 => '8' | 9 => '9'
  | _ => '*'

/-- Fuel-driven digit accumulation (most significant first). -/
def natToCharsGo : Nat → Nat → List Char → List Char
  | 0, _, acc => acc
  | fuel + 1, n, acc =>
    if n = 0 then acc else natToCharsGo fuel (n / 10) (digitC (n % 10) :: acc)

/-- Decimal rendering of a natural number. -/
def natToChars (n : Nat) : List Char :=
  if n = 0 then ['0'] else natToCharsGo n n []

/-- Value denoted by a run of decimal digit characters. -/
def digitsVal (l : List Char) : Nat :=
  l.foldl (fun a c => a * 10 + (c.toNat - 48)) 0

/-!
Models of the `sscanf` patterns used by `osm_parse.c`.  A literal in the
format must match exactly; `%u` skips leading white space, accepts an
optional sign and then a non-empty digit run (the value is reduced
`% 2^32`, the width of C `unsigned int`); `%lf` skips white space and
accepts a decimal floating literal.  A trailing literal after the last
conversion cannot reduce the conversion count that the C code checks, so
it is not modelled.
-/

/-- Decimal digit character class (`isdigit` in the C locale). -/
def isDigitC (c : Char) : Bool :=
  c = '0' || c = '1' || c = '2' || c = '3' || c = '4' ||
  c = '5' || c = '6' || c = '7' || c = '8' || c = '9'

/-- Conversion `%u`: returns the parsed 32-bit value and the rest. -/
def scanUnsigned (l : List Char) : Option (Nat × List Char) :=
  let l1 := l.dropWhile isSpaceC
  let l2 := if l1.head? = some '-' ∨ l1.head? = some '+' then l1.drop 1 else l1
  let ds := l2.takeWhile isDigitC
  if ds = [] then none
  else
    let v := digitsVal ds % 2 ^ 32
    some (if l1.head? = some '-' then (2 ^ 32 - v) % 2 ^ 32 else v, l2.drop ds.length)

/-- Conversion `%lf`: accepts `[+-]? digits [. digits]? ([eE][+-]?digits)?`
with at least one digit before or after the point; returns the matched
text (the numeric value of a coordinate is never inspected by the claims)
and the rest of the input.  The hexadecimal, infinity and NaN forms of
`strtod` are not modelled — no input in any theorem uses them. -/
def scanFloat (l : List Char) : Option (List Char × List Char) :=
  let l1 := l.dropWhile isSpaceC
  let sgn := if l1.head? = some '-' ∨ l1.head? = some '+' then l1.take 1 else []
  let l2 := l1.drop sgn.length
  let ip := l2.takeWhile isDigitC
  let l3 := l2.drop ip.length
  let fp := if l3.head? = some '.' then '.' :: (l3.drop 1).takeWhile isDigitC else []
  let l4 := l3.drop fp.length
  if ip = [] ∧ fp.length ≤ 1 then none
  else
    let ex :=
      if l4.head? = some 'e' ∨ l4.head? = some 'E' then
        let l5 := l4.drop 1
        let es := if l5.head? = some '-' ∨ l5.head? = some '+' then l5.take 1 else []
        let ed := (l5.drop es.length).takeWhile isDigitC
        if ed = [] then [] else l4.take 1 ++ es ++ ed
      else []
    some (sgn ++ ip ++ fp ++ ex, l4.drop ex.length)

/-- Scan `id="%u"` (ways, relations): the literal `id="` then `%u`. -/
def scanId (l : List Char) : Option Nat :=
  match matchLit ['i', 'd', '=', '"'] l with
  | none => none
  | some r =>
    match scanUnsigned r with
    | none => none
    | some (v, _) => some v

/-- Scan `ref="%u"` (way member nodes, relation members). -/
def scanRef (l : List Char) : Option Nat :=
  match matchLit ['r', 'e', 'f', '=', '"'] l with
  | none => none
  | some r =>
    match scanUnsigned r with
    | none => none
    | some (v, _) => some v

/-- Scan `id="%u" lat="%lf" lon="%lf"` for a node opening tag.  The space
between conversions in the format matches any amount of white space. -/
def scanNodeAttrs (l : List Char) : Option (Nat × List Char × List Char) :=
  match matchLit ['i', 'd', '=', '"'] l with
  | none => none
  | some r1 =>
    match scanUnsigned r1 with
    | none => none
    | some (i, r2) =>
      match matchLit ['"'] r2 with
      | none => none
      | some r3 =>
        match matchLit ['l', 'a', 't', '=', '"'] (r3.dropWhile isSpaceC) with
        | none => none
        | some r4 =>
          match scanFloat r4 with
          | none => none
          | some (la, r5) =>
            match matchLit ['"'] r5 with
            | none => none
            | some r6 =>
              match matchLit ['l', 'o', 'n', '=', '"'] (r6.dropWhile isSpaceC) with
              | none => none
              | some r7 =>
                match scanFloat r7 with
                | none => none
                | some (lo, _) => some (i, la, lo)

/-- Key/value attribute tag, `struct osm_tag` from `osm.h`. -/
structure OsmTag where
  key : List Char
  value : List Char
deriving DecidableEq, Repr

/-- Model of `parse_tag` from `osm_parse.c`: find `k="`, read the key with
`read_string`, then from the remaining input find `v="` and read the
value. -/
def parse_tag (text : List Char) : Option OsmTag :=
  match findSub ['k', '=', '"'] text with
  | none => none
  | some s1 =>
    let kr := read_string (s1.drop 3) 0
    match findSub ['v', '=', '"'] kr.2 with
    | none => none
    | some s2 =>
      let vr := read_string (s2.drop 3) 0
      some ⟨kr.1, vr.1⟩

/-!
Feature records (`osm.h`) and the streaming parser (`osm_parse.c`).
The C parser reuses one growable record per feature kind and passes it to
a callback; the model keeps the three records in the parser state and
reports a completed feature as an `Event` (a `NULL` callback in C simply
means the driver ignores that event kind).  Count fields together with
their backing arrays are modelled as lists; `node_roles`/`way_roles` are
paired with their IDs.
-/

/-- Node record, `struct osm_node`.  Latitude and longitude are kept as
the raw text matched by `%lf` — no claim inspects their numeric value. -/
structure OsmNode where
  id : Nat
  lat : List Char
  lon : List Char
  tags : List OsmTag
deriving DecidableEq, Repr

/-- Way record, `struct osm_way`. -/
structure OsmWay where
  id : Nat
  nodes : List Nat
  tags : List OsmTag
deriving DecidableEq, Repr

/-- Relation record, `struct osm_relation` (member IDs paired with their
role strings). -/
structure OsmRelation where
  id : Nat
  nodes : List (Nat × List Char)
  ways : List (Nat × List Char)
  tags : List OsmTag
deriving DecidableEq, Repr

/-- A completed feature reported by the parser; in C, the invocation of
the corresponding callback. -/
inductive Event where
  | nodeDone : OsmNode → Event
  | wayDone : OsmWay → Event
  | relationDone : OsmRelation → Event
deriving DecidableEq, Repr

/-- Parser state, `struct osm_parse`. -/
structure OsmParse where
  in_osm : Bool
  in_node : Bool
  in_way : Bool
  in_relation : Bool
  node : OsmNode
  way : OsmWay
  relation : OsmRelation
deriving DecidableEq, Repr

/-- State produced by `osm_parse_init` (a `calloc`-zeroed structure). -/
def osm_parse_init : OsmParse :=
  ⟨false, false, false, false, ⟨0, [], [], []⟩, ⟨0, [], []⟩, ⟨0, [], [], []⟩⟩

/-- Tag-extraction prefix of `osm_parse_ingest`: find `<`, skip white
space, note a leading `/`, scan the tag name, and return the text after
the name's delimiter (the C code overwrites the delimiter with NUL and
addresses the attributes as `tag + strlen(name) + 1`).  `none` models the
`return 0` when the line has no `<`. -/
def extractTag (line : List Char) : Option (Bool × List Char × List Char) :=
  match line.dropWhile (fun c => c != '<') with
  | [] => none
  | _ :: afterLt =>
    let l1 := afterLt.dropWhile isSpaceC
    let endTag := l1.head? = some '/'
    let l2 := if l1.head? = some '/' then l1.drop 1 else l1
    let name := l2.takeWhile isNameC
    some (endTag, name, (l2.dropWhile isNameC).drop 1)

/-- Model of `osm_parse_ingest`.  Returns the new parser state, the
completed feature (callback invocation) if any, and the C return value as
a Bool (`true` = 1, end of the `<osm>` data block).  On a malformed line
the C code prints a diagnostic and returns 0; diagnostics are not
modelled.  On a malformed feature-opening tag `sscanf` may have stored a
prefix of its conversions before failing; the model leaves the previous
record fields in place in that case (no claim inspects them) but reflects
the count resets the C code performs before calling `sscanf`. -/
def osm_parse_ingest (p : OsmParse) (line : List Char) : OsmParse × Option Event × Bool :=
  match extractTag line with
  | none => (p, none, false)
  | some (endTag, name, attr) =>
    if p.in_osm = false then
      if name = ['o', 's', 'm'] then ({ p with in_osm := true }, none, false)
      else (p, none, false)
    else if p.in_node then
      if endTag = true ∧ name = ['n', 'o', 'd', 'e'] then
        ({ p with in_node := false }, some (Event.nodeDone p.node), false)
      else if name = ['t', 'a', 'g'] then
        match parse_tag attr with
        | none => (p, none, false)
        | some t =>
          ({ p with node := { p.node with tags := p.node.tags ++ [t] } }, none, false)
      else (p, none, false)
    else if p.in_way then
      if endTag = true ∧ name = ['w', 'a', 'y'] then
        ({ p with in_way := false }, some (Event.wayDone p.way), false)
      else if name = ['n', 'd'] then
        match scanRef attr with
        | none => (p, none, false)
        | some i =>
          ({ p with way := { p.way with nodes := p.way.nodes ++ [i] } }, none, false)
      else if name = ['t', 'a', 'g'] then
        match parse_tag attr with
        | none => (p, none, false)
        | some t =>
          ({ p with way := { p.way with tags := p.way.tags ++ [t] } }, none, false)
      else (p, none, false)
    else if p.in_relation then
      if endTag = true ∧ name = ['r', 'e', 'l', 'a', 't', 'i', 'o', 'n'] then
        ({ p with in_relation := false }, some (Event.relationDone p.relation), false)
      else if name = ['m', 'e', 'm', 'b', 'e', 'r'] then
        if (['t', 'y', 'p', 'e', '=', '"', 'n', 'o', 'd', 'e', '"']).isPrefixOf attr then
          let a := attr.drop 12
          match scanRef a with
          | none => (p, none, false)
          | some i =>
            match findSub ['r', 'o', 'l', 'e', '=', '"'] a with
            | none => (p, none, false)
            | some s =>
              let role := (read_string (s.drop 6) 0).1
              ({ p with relation :=
                  { p.relation with nodes := p.relation.nodes ++ [(i, role)] } }, none, false)
        else if (['t', 'y', 'p', 'e', '=', '"', 'w', 'a', 'y', '"']).isPrefixOf attr then
          let a := attr.drop 11
          match scanRef a with
          | none => (p, none, false)
          | some i =>
            match findSub ['r', 'o', 'l', 'e', '=', '"'] a with
            | none => (p, none, false)
            | some s =>
              let role := (read_string (s.drop 6) 0).1
              ({ p with relation :=
                  { p.relation with ways := p.relation.ways ++ [(i, role)] } }, none, false)
        else (p, none, false)
      else if name = ['t', 'a', 'g'] then
        match parse_tag attr with
        | none => (p, none, false)
        | some t =>
          ({ p with relation := { p.relation with tags := p.relation.tags ++ [t] } }, none, false)
      else (p, none, false)
    else if name = ['n', 'o', 'd', 'e'] then
      match scanNodeAttrs attr with
      | none => ({ p with node := { p.node with tags := [] } }, none, false)
      | some (i, la, lo) =>
        let nd : OsmNode := ⟨i, la, lo, []⟩
        if selfClosing attr then ({ p with node := nd }, some (Event.nodeDone nd), false)
        else ({ p with node := nd, in_node := true }, none, false)
    else if name = ['w', 'a', 'y'] then
      match scanId attr with
      | none => ({ p with way := { p.way with nodes := [], tags := [] } }, none, false)
      | some i =>
        let w : OsmWay := ⟨i, [], []⟩
        if selfClosing attr then ({ p with way := w }, none, false)
        else ({ p with way := w, in_way := true }, none, false)
    else if name = ['r', 'e', 'l', 'a', 't', 'i', 'o', 'n'] then
      match scanId attr with
      | none =>
        ({ p with relation := { p.relation with nodes := [], ways := [], tags := [] } },
         none, false)
      | some i =>
        let r : OsmRelation := ⟨i, [], [], []⟩
        if selfClosing attr then ({ p with relation := r }, none, false)
        else ({ p with relation := r, in_relation := true }, none, false)
    else if endTag = true ∧ name = ['o', 's', 'm'] then (p, none, true)
    else (p, none, false)

/-!
Decompression feed, `osm_planet.c`.  The worker thread delivers the
decompressed bytes in order; the model abstracts the double buffer as the
remaining byte sequence.  `osm_planet_readln` in the C source contains a
single `return 0` statement: a call either completes a line (drops
leading CR/LF/blank-line separators, strips the terminator) or blocks
forever inside `pthread_cond_wait` once the stream is exhausted, which is
modelled as `none`.  The `Nat` in the result is the C return value.
-/

/-- Worker loop of `osm_planet_readln`: `acc` is the reversed line built
so far (`recvbuff`/`len`). -/
def osm_planet_readln_go : List Char → List Char → Option (Nat × List Char × List Char)
  | [], _ => none
  | c :: rest, acc =>
    if c = '\r' ∨ c = '\n' then
      if acc = [] then osm_planet_readln_go rest []
      else some (0, acc.reverse, rest)
    else osm_planet_readln_go rest (c :: acc)

/-- Model of `osm_planet_readln` over the remaining decompressed bytes:
`some (ret, line, rest)` when the call returns, `none` when it blocks
forever waiting for a buffer fill that never comes. -/
def osm_planet_readln (stream : List Char) : Option (Nat × List Char × List Char) :=
  osm_planet_readln_go stream []

/-!
Closure filter engine, `osmrail.c`.
-/

/-- Model of `cmp_id`: `(int)aa - bb` on C `unsigned int` operands is the
unsigned difference `(a - b) mod 2^32` converted to a signed 32-bit
value. -/
def cmp_id (a b : Nat) : Int :=
  let d : Nat := (a % 2 ^ 32 + (2 ^ 32 - b % 2 ^ 32)) % 2 ^ 32
  if d < 2 ^ 31 then (d : Int) else (d : Int) - 2 ^ 32

/-- Order decision derived from `cmp_id`, as consulted by `qsort`. -/
def cmpLe (a b : Nat) : Bool :=
  cmp_id a b ≤ 0

/-- Insertion of one element into a `cmpLe`-ordered list. -/
def insertCmp (a : Nat) : List Nat → List Nat
  | [] => [a]
  | b :: l => if cmpLe a b then a :: b :: l else b :: insertCmp a l

/-- Model of `qsort` with comparator `cmp_id`, as insertion sort: any
exchange sort agrees with it whenever the comparator is consistent, and
`qsort` on an inconsistent comparator is undefined in C. -/
def sortC : List Nat → List Nat
  | [] => []
  | a :: l => insertCmp a (sortC l)

/-- Worker for the single-pass adjacent-duplicate removal in `main`:
keeps an element when it differs from the last kept one (`prev`). -/
def dedupAdjGo (prev : Nat) : List Nat → List Nat
  | [] => []
  | c :: r => if c = prev then dedupAdjGo prev r else c :: dedupAdjGo c r

/-- Adjacent-duplicate removal as performed by the two finalisation
blocks in `main` (for a non-empty array). -/
def dedupAdj : List Nat → List Nat
  | [] => []
  | a :: l => a :: dedupAdjGo a l

/-- Model of one finalisation block in `main`: `qsort` with `cmp_id`,
adjacent-duplicate removal, compaction.  When the accumulated set is
empty the C code still executes `count = prev + 1`, turning the set into
a single-element array whose cell was never written; `junk` stands for
that indeterminate cell content. -/
def finalize (junk : Nat) (l : List Nat) : List Nat :=
  match l with
  | [] => [junk]
  | _ :: _ => dedupAdj (sortC l)

/-- Fuel-driven binary search loop of C `bsearch` over a list with
comparator `cmp_id`; `lo`/`hi` bracket the candidates. -/
def bsearchGo : Nat → Nat → Nat → Nat → List Nat → Bool
  | 0, _, _, _, _ => false
  | fuel + 1, key, lo, hi, arr =>
    if lo < hi then
      let mid := (lo + hi) / 2
      let c := cmp_id key (arr.getD mid 0)
      if c < 0 then bsearchGo fuel key lo mid arr
      else if 0 < c then bsearchGo fuel key (mid + 1) hi arr
      else true
    else false

/-- Model of the `bsearch(&id, ids, count, ...)` membership tests: `true`
iff an element comparing equal under `cmp_id` is found. -/
def bsearchId (key : Nat) (arr : List Nat) : Bool :=
  bsearchGo (arr.length + 1) key 0 arr.length arr

/-- Model of `check_tags`: does any attribute tag of the candidate
feature satisfy any filter pattern?  The C code tests `wanted->key[0]`
(resp. `value[0]`) against `'*'` — the first character only. -/
def check_tags (tags : List OsmTag) (wanted : List OsmTag) : Bool :=
  tags.any fun c =>
    wanted.any fun w =>
      if w.key.head? = some '*' then w.value == c.value
      else if w.value.head? = some '*' then w.key == c.key
      else w.key == c.key && w.value == c.value

/-- Working state of the filter engine, `struct osm_params`: the filter
patterns and the three ID sets (`ids[OSM_NODE]`, `ids[OSM_WAY]`,
`ids[OSM_RELATION]` with their counts; capacity management is not
observable and not modelled). -/
structure OsmParams where
  tags : List OsmTag
  nodeIds : List Nat
  wayIds : List Nat
  relIds : List Nat
deriving DecidableEq, Repr

/-- Pass-1 node callback `load_node`: record the ID of a node whose tags
match the filter. -/
def load_node (node : OsmNode) (osm : OsmParams) : OsmParams :=
  if check_tags node.tags osm.tags then { osm with nodeIds := osm.nodeIds ++ [node.id] }
  else osm

/-- Pass-1 way callback `load_way_1`: record the ID of a way whose tags
match the filter. -/
def load_way_1 (way : OsmWay) (osm : OsmParams) : OsmParams :=
  if check_tags way.tags osm.tags then { osm with wayIds := osm.wayIds ++ [way.id] }
  else osm

/-- Pass-2 way callback `load_way_2`: for a way already in the way ID
set, record all its member node IDs. -/
def load_way_2 (way : OsmWay) (osm : OsmParams) : OsmParams :=
  if bsearchId way.id osm.wayIds then { osm with nodeIds := osm.nodeIds ++ way.nodes }
  else osm

/-- Pass-1 relation callback `load_relation`: for a relation whose tags
match the filter, record its own ID in the relation set and all its
way-member IDs in the way set (node members are not recorded). -/
def load_relation (rel : OsmRelation) (osm : OsmParams) : OsmParams :=
  if check_tags rel.tags osm.tags then
    { osm with relIds := osm.relIds ++ [rel.id],
               wayIds := osm.wayIds ++ rel.ways.map Prod.fst }
  else osm

/-- Pass-3 node callback `output_node`: emit the node iff its ID passes
the `bsearch` membership test (the printed markup is abstracted as the
emitted record). -/
def output_node (node : OsmNode) (osm : OsmParams) : List Event :=
  if bsearchId node.id osm.nodeIds then [Event.nodeDone node] else []

/-- Pass-3 way callback `output_way`. -/
def output_way (way : OsmWay) (osm : OsmParams) : List Event :=
  if bsearchId way.id osm.wayIds then [Event.wayDone way] else []

/-- Pass-3 relation callback `output_relation` (the emitted element lists
all member references, node members included). -/
def output_relation (rel : OsmRelation) (osm : OsmParams) : List Event :=
  if bsearchId rel.id osm.relIds then [Event.relationDone rel] else []

/-- One pass of `main`'s read loop: ingest lines until the parser reports
the end of the data block (or the lines run out), folding each completed
feature into an accumulator via `handle` — the callback dispatch. -/
def runPass {α : Type} (handle : Event → α → α) : OsmParse → α → List (List Char) → α
  | _, acc, [] => acc
  | p, acc, line :: rest =>
    let step := osm_parse_ingest p line
    let acc' := match step.2.1 with
      | some e => handle e acc
      | none => acc
    if step.2.2 then acc' else runPass handle step.1 acc' rest

/-- Callback dispatch of pass 1 (`load_node`, `load_way_1`,
`load_relation`). -/
def pass1Handle (e : Event) (osm : OsmParams) : OsmParams :=
  match e with
  | Event.nodeDone n => load_node n osm
  | Event.wayDone w => load_way_1 w osm
  | Event.relationDone r => load_relation r osm

/-- Callback dispatch of pass 2 (`NULL`, `load_way_2`, `NULL`). -/
def pass2Handle (e : Event) (osm : OsmParams) : OsmParams :=
  match e with
  | Event.wayDone w => load_way_2 w osm
  | _ => osm

/-- Callback dispatch of pass 3, accumulating the emitted features. -/
def pass3Handle (osm : OsmParams) (e : Event) (out : List Event) : List Event :=
  out ++ match e with
    | Event.nodeDone n => output_node n osm
    | Event.wayDone w => output_way w osm
    | Event.relationDone r => output_relation r osm

/-- Filter patterns hard-coded in `main`: `railway=*` and `route=train`. -/
def filterTags : List OsmTag :=
  [⟨['r', 'a', 'i', 'l', 'w', 'a', 'y'], ['*']⟩,
   ⟨['r', 'o', 'u', 't', 'e'], ['t', 'r', 'a', 'i', 'n']⟩]

/-- Model of `main`'s three-pass run over a dataset given as the line
sequence each pass reads.  After pass 1 the C loop
`for(ele = OSM_WAY; ele < OSM_RELATION; ele++)` finalises only the way
set (the relation set is never finalised); after pass 2 the node set is
finalised.  The result is the sequence of features emitted by pass 3. -/
def osmrail_run (junk : Nat) (lines : List (List Char)) : List Event :=
  let osm0 : OsmParams := ⟨filterTags, [], [], []⟩
  let osm1 := runPass pass1Handle osm_parse_init osm0 lines
  let osm2 := { osm1 with wayIds := finalize junk osm1.wayIds }
  let osm3 := runPass pass2Handle osm_parse_init osm2 lines
  let osm4 := { osm3 with nodeIds := finalize junk osm3.nodeIds }
  runPass (pass3Handle osm4) osm_parse_init [] lines

/-!
Definitions used only by theorem statements: spec-side predicates and
constructed input datasets.
-/

/-- Text containing a literal `&#` sequence (the numeric-reference
heuristic that `print_xml` leaves unescaped). -/
def hasAmpHash : List Char → Bool
  | [] => false
  | c :: rest => (c == '&' && rest.head? == some '#') || hasAmpHash rest

/-- Recognised entity spelled just past an `&`: returns the text after
the entity, or `none`. -/
def entityAfterAmp : List Char → Option (List Char)
  | 'a' :: 'm' :: 'p' :: ';' :: rest => some rest
  | 'a' :: 'p' :: 'o' :: 's' :: ';' :: rest => some rest
  | 'g' :: 't' :: ';' :: rest => some rest
  | 'l' :: 't' :: ';' :: rest => some rest
  | 'q' :: 'u' :: 'o' :: 't' :: ';' :: rest => some rest
  | _ => none

/-- Fuel-driven worker for `wellEscaped` (one unit of fuel per text
chunk; each chunk consumes at least one character). -/
def wellEscapedGo : Nat → List Char → Bool
  | 0, l => l.isEmpty
  | _ + 1, [] => true
  | fuel + 1, c :: rest =>
    if c = '<' ∨ c = '>' ∨ c = '"' ∨ c = '\'' then false
    else if c = '&' then
      match entityAfterAmp rest with
      | some r => wellEscapedGo fuel r
      | none => false
    else wellEscapedGo fuel rest

/-- Escaped text in which no reserved character appears raw: every
`' " < >` is absent and every `&` begins one of the five recognised
entities. -/
def wellEscaped (l : List Char) : Bool :=
  wellEscapedGo (l.length + 1) l

/-- Input just past an `&` that spells one of the five recognised
entities. -/
def isEntityStart (l : List Char) : Bool :=
  (['a', 'm', 'p', ';']).isPrefixOf l || (['a', 'p', 'o', 's', ';']).isPrefixOf l ||
  (['g', 't', ';']).isPrefixOf l || (['l', 't', ';']).isPrefixOf l ||
  (['q', 'u', 'o', 't', ';']).isPrefixOf l

/-- Satisfaction of one filter pattern by one candidate tag as the spec
words it: an exact key+value match, or a value match when the pattern's
key side is `*`, or a key match when the pattern's value side is `*`. -/
def claim_satisfies (c w : OsmTag) : Bool :=
  (w.key == c.key && w.value == c.value) ||
  (w.key == ['*'] && w.value == c.value) ||
  (w.value == ['*'] && w.key == c.key)

/-- Filter pattern whose encoding is unambiguous for `check_tags`: a side
beginning with `*` is exactly the wildcard, and not both sides are
wildcards. -/
def okPattern (w : OsmTag) : Prop :=
  (w.key.head? = some '*' → w.key = ['*']) ∧
  (w.value.head? = some '*' → w.value = ['*']) ∧
  ¬(w.key = ['*'] ∧ w.value = ['*'])

instance (w : OsmTag) : Decidable (okPattern w) := by
  unfold okPattern
  infer_instance

/-- At most one of the three in-feature parser flags is set. -/
def atMostOneFlag (p : OsmParse) : Prop :=
  (p.in_node = true → p.in_way = false ∧ p.in_relation = false) ∧
  (p.in_way = true → p.in_relation = false)

/-- Reachable flag combinations: no feature open, or exactly one of the
three feature kinds open. -/
def flagsOk (p : OsmParse) : Prop :=
  (p.in_node = false ∧ p.in_way = false ∧ p.in_relation = false) ∨
  (p.in_node = true ∧ p.in_way = false ∧ p.in_relation = false) ∨
  (p.in_node = false ∧ p.in_way = true ∧ p.in_relation = false) ∨
  (p.in_node = false ∧ p.in_way = false ∧ p.in_relation = true)

/-- Parser state folded over a line sequence (events discarded): the
states reachable by ingesting arbitrary input. -/
def ingestAll (p : OsmParse) : List (List Char) → OsmParse
  | [] => p
  | line :: rest => ingestAll (osm_parse_ingest p line).1 rest

/-- Parser state inside the `<osm>` document with no feature open. -/
def parse_in_doc : OsmParse :=
  { osm_parse_init with in_osm := true }

/-!
Constructed input lines.  Feature IDs are rendered with `natToChars` so
that theorems quantify over them; all other text is fixed.
-/

/-- Attribute text `id="<n><tail>`. -/
def idAttr (n : Nat) (tail : List Char) : List Char :=
  'i' :: 'd' :: '=' :: '"' :: (natToChars n ++ tail)

/-- Tail of a self-closing node opening line: `" lat="0" lon="0"/>`. -/
def nodeSelfTail : List Char :=
  '"' :: ' ' :: 'l' :: 'a' :: 't' :: '=' :: '"' :: '0' :: '"' :: ' ' ::
  'l' :: 'o' :: 'n' :: '=' :: '"' :: '0' :: '"' :: '/' :: '>' :: []

/-- Tail of a multi-line node opening line: `" lat="0" lon="0">`. -/
def nodeOpenTail : List Char :=
  '"' :: ' ' :: 'l' :: 'a' :: 't' :: '=' :: '"' :: '0' :: '"' :: ' ' ::
  'l' :: 'o' :: 'n' :: '=' :: '"' :: '0' :: '"' :: '>' :: []

/-- Line `<node id="n" lat="0" lon="0"/>`. -/
def nodeSelfLine (n : Nat) : List Char :=
  '<' :: 'n' :: 'o' :: 'd' :: 'e' :: ' ' :: idAttr n nodeSelfTail

/-- Line `<node id="n" lat="0" lon="0">`. -/
def nodeOpenLine (n : Nat) : List Char :=
  '<' :: 'n' :: 'o' :: 'd' :: 'e' :: ' ' :: idAttr n nodeOpenTail

/-- Line `<way id="n">`. -/
def wayOpenLine (n : Nat) : List Char :=
  '<' :: 'w' :: 'a' :: 'y' :: ' ' :: idAttr n ('"' :: '>' :: [])

/-- Line `<way id="n"/>`. -/
def waySelfLine (n : Nat) : List Char :=
  '<' :: 'w' :: 'a' :: 'y' :: ' ' :: idAttr n ('"' :: '/' :: '>' :: [])

/-- Line `<relation id="n">`. -/
def relOpenLine (n : Nat) : List Char :=
  '<' :: 'r' :: 'e' :: 'l' :: 'a' :: 't' :: 'i' :: 'o' :: 'n' :: ' ' ::
  idAttr n ('"' :: '>' :: [])

/-- Line `<relation id="n"/>`. -/
def relSelfLine (n : Nat) : List Char :=
  '<' :: 'r' :: 'e' :: 'l' :: 'a' :: 't' :: 'i' :: 'o' :: 'n' :: ' ' ::
  idAttr n ('"' :: '/' :: '>' :: [])

/-- Line `<nd ref="n"/>`. -/
def ndLine (n : Nat) : List Char :=
  '<' :: 'n' :: 'd' :: ' ' :: 'r' :: 'e' :: 'f' :: '=' :: '"' ::
  (natToChars n ++ '"' :: '/' :: '>' :: [])

/-- Line `<member type="way" ref="n" role=""/>`. -/
def memberWayLine (n : Nat) : List Char :=
  '<' :: 'm' :: 'e' :: 'm' :: 'b' :: 'e' :: 'r' :: ' ' ::
  't' :: 'y' :: 'p' :: 'e' :: '=' :: '"' :: 'w' :: 'a' :: 'y' :: '"' :: ' ' ::
  'r' :: 'e' :: 'f' :: '=' :: '"' ::
  (natToChars n ++ '"' :: ' ' :: 'r' :: 'o' :: 'l' :: 'e' :: '=' :: '"' :: '"' :: '/' :: '>' :: [])

/-- Line `<member type="node" ref="n" role=""/>`. -/
def memberNodeLine (n : Nat) : List Char :=
  '<' :: 'm' :: 'e' :: 'm' :: 'b' :: 'e' :: 'r' :: ' ' ::
  't' :: 'y' :: 'p' :: 'e' :: '=' :: '"' :: 'n' :: 'o' :: 'd' :: 'e' :: '"' :: ' ' ::
  'r' :: 'e' :: 'f' :: '=' :: '"' ::
  (natToChars n ++ '"' :: ' ' :: 'r' :: 'o' :: 'l' :: 'e' :: '=' :: '"' :: '"' :: '/' :: '>' :: [])

/-- Line `<osm version="0.6">`. -/
def osmOpenLine : List Char := "<osm version=\"0.6\">".toList

/-- Line `</osm>`. -/
def osmEndLine : List Char := "</osm>".toList

/-- Line `</node>`. -/
def nodeEndLine : List Char := "</node>".toList

/-- Line `</way>`. -/
def wayEndLine : List Char := "</way>".toList

/-- Line `</relation>`. -/
def relEndLine : List Char := "</relation>".toList

/-- Line `<tag k="route" v="train"/>`. -/
def tagRouteTrainLine : List Char := "<tag k=\"route\" v=\"train\"/>".toList

/-- Line `<tag k="railway" v="station"/>`. -/
def tagRailwayStationLine : List Char := "<tag k=\"railway\" v=\"station\"/>".toList

/-- Dataset for the closure-correctness claim: member point M, unrelated
point N, path P (no tags of its own) containing M, and group G carrying
the matching tag `route=train` with P as a way member. -/
def dsClosure (m n pw g : Nat) : List (List Char) :=
  [osmOpenLine,
   nodeSelfLine m,
   nodeSelfLine n,
   wayOpenLine pw,
   ndLine m,
   wayEndLine,
   relOpenLine g,
   memberWayLine pw,
   tagRouteTrainLine,
   relEndLine,
   osmEndLine]

/-- Dataset for the point-member claim: point Q (no tags), point R
carrying the matching tag `railway=station`, and group G carrying
`route=train` with Q as a point member (and no way members). -/
def dsPointMember (q r g : Nat) : List (List Char) :=
  [osmOpenLine,
   nodeSelfLine q,
   nodeOpenLine r,
   tagRailwayStationLine,
   nodeEndLine,
   relOpenLine g,
   memberNodeLine q,
   tagRouteTrainLine,
   relEndLine,
   osmEndLine]

/-!
Helper lemmas: list scanning.
-/

theorem takeWhile_append_cons {p : Char → Bool} {xs : List Char} {y : Char} {ys : List Char}
    (h1 : ∀ c ∈ xs, p c = true) (h2 : p y = false) :
    List.takeWhile p (xs ++ y :: ys) = xs := by
  induction xs with
  | nil => simp [List.takeWhile, h2]
  | cons a l ih =>
    have ha := h1 a (List.mem_cons_self a l)
    simp [List.takeWhile, ha]
    exact ih fun c hc => h1 c (List.mem_cons_of_mem a hc)

theorem dropWhile_append_cons {p : Char → Bool} {xs : List Char} {y : Char} {ys : List Char}
    (h1 : ∀ c ∈ xs, p c = true) (h2 : p y = false) :
    List.dropWhile p (xs ++ y :: ys) = y :: ys := by
  induction xs with
  | nil => simp [List.dropWhile, h2]
  | cons a l ih =>
    have ha := h1 a (List.mem_cons_self a l)
    simp [List.dropWhile, ha]
    exact ih fun c hc => h1 c (List.mem_cons_of_mem a hc)

theorem dropWhile_cons_false {p : Char → Bool} {x : Char} {xs : List Char}
    (h : p x = false) : List.dropWhile p (x :: xs) = x :: xs := by
  simp [List.dropWhile, h]

theorem matchLit_append (lit r : List Char) : matchLit lit (lit ++ r) = some r := by
  induction lit with
  | nil => rfl
  | cons c p ih => simp [matchLit, ih]

theorem isPrefixOf_append_self_list (pfx sfx : List Char) :
    pfx.isPrefixOf (pfx ++ sfx) = true := by
  induction pfx with
  | nil => simp [List.isPrefixOf]
  | cons c p ih => simp [List.isPrefixOf, ih]

theorem findSub_skip {c : Char} {pt : List Char} {xs r : List Char}
    (h : ∀ x ∈ xs, ¬x = c) :
    findSub (c :: pt) (xs ++ r) = findSub (c :: pt) r := by
  induction xs with
  | nil => rfl
  | cons a l ih =>
    have ha : ¬a = c := h a (List.mem_cons_self a l)
    have hpre : (c :: pt).isPrefixOf (a :: (l ++ r)) = false := by
      simp [List.isPrefixOf]
      intro hca
      exact absurd hca.symm ha
    simp [findSub, hpre]
    exact ih fun x hx => h x (List.mem_cons_of_mem a hx)

/-!
Helper lemmas: decimal digits.
-/

theorem digitC_isDigit {n : Nat} (h : n < 10) : isDigitC (digitC n) = true := by
  interval_cases n <;> decide

theorem digitC_val {n : Nat} (h : n < 10) : (digitC n).toNat - 48 = n := by
  interval_cases n <;> decide

theorem isDigitC_props {c : Char} (h : isDigitC c = true) :
    isSpaceC c = false ∧ ¬c = '-' ∧ ¬c = '+' ∧ ¬c = '"' ∧ ¬c = '/' ∧ ¬c = 'r' ∧
    ¬c = '<' ∧ ¬c = '.' ∧ ¬c = 'e' ∧ ¬c = 'E' := by
  simp only [isDigitC, Bool.or_eq_true, decide_eq_true_eq] at h
  rcases h with (((((((((rfl | rfl) | rfl) | rfl) | rfl) | rfl) | rfl) | rfl) | rfl) | rfl) <;>
    decide

theorem natToCharsGo_zero (fuel : Nat) (acc : List Char) :
    natToCharsGo fuel 0 acc = acc := by
  cases fuel <;> simp [natToCharsGo]

theorem natToCharsGo_acc (fuel : Nat) :
    ∀ (n : Nat) (acc : List Char), natToCharsGo fuel n acc = natToCharsGo fuel n [] ++ acc := by
  induction fuel with
  | zero => intro n acc; simp [natToCharsGo]
  | succ f ih =>
    intro n acc
    by_cases h : n = 0
    · simp [natToCharsGo, h]
    · simp only [natToCharsGo, h, if_false]
      rw [ih (n / 10) (digitC (n % 10) :: acc), ih (n / 10) [digitC (n % 10)]]
      simp

theorem natToCharsGo_extra {n : Nat} :
    ∀ {f₁ f₂ : Nat}, n ≤ f₁ → n ≤ f₂ → natToCharsGo f₁ n [] = natToCharsGo f₂ n [] := by
  induction n using Nat.strong_induction_on with
  | _ n ih =>
    intro f₁ f₂ h₁ h₂
    by_cases hz : n = 0
    · subst hz; rw [natToCharsGo_zero, natToCharsGo_zero]
    · have hf₁ : 0 < f₁ := lt_of_lt_of_le (Nat.pos_of_ne_zero hz) h₁
      have hf₂ : 0 < f₂ := lt_of_lt_of_le (Nat.pos_of_ne_zero hz) h₂
      obtain ⟨g₁, rfl⟩ := Nat.exists_eq_succ_of_ne_zero (Nat.pos_iff_ne_zero.mp hf₁)
      obtain ⟨g₂, rfl⟩ := Nat.exists_eq_succ_of_ne_zero (Nat.pos_iff_ne_zero.mp hf₂)
      simp only [natToCharsGo, hz, if_false]
      rw [natToCharsGo_acc g₁, natToCharsGo_acc g₂]
      have hd : n / 10 < n := Nat.div_lt_self (Nat.pos_of_ne_zero hz) (by omega)
      rw [@ih (n / 10) hd g₁ g₂ (by omega) (by omega)]

theorem natToChars_all_digits (n : Nat) : ∀ c ∈ natToChars n, isDigitC c = true := by
  unfold natToChars
  by_cases hz : n = 0
  · simp [hz]; decide
  · simp only [hz, if_false]
    -- generalised statement over the accumulator
    suffices h : ∀ fuel m acc, m ≤ fuel → (∀ c ∈ acc, isDigitC c = true) →
        ∀ c ∈ natToCharsGo fuel m acc, isDigitC c = true by
      exact h n n [] le_rfl (by simp)
    intro fuel
    induction fuel with
    | zero => intro m acc _ hacc; simpa [natToCharsGo] using hacc
    | succ f ih =>
      intro m acc hm hacc c hc
      by_cases hz' : m = 0
      · simp [natToCharsGo, hz'] at hc; exact hacc c hc
      · simp only [natToCharsGo, hz', if_false] at hc
        refine ih (m / 10) _ (by omega) ?_ c hc
        intro d hd
        rcases List.mem_cons.mp hd with rfl | hd'
        · exact digitC_isDigit (Nat.mod_lt m (by omega))
        · exact hacc d hd'

theorem natToChars_ne_nil (n : Nat) : natToChars n ≠ [] := by
  unfold natToChars
  by_cases hz : n = 0
  · simp [hz]
  · simp only [hz, if_false]
    obtain ⟨g, rfl⟩ := Nat.exists_eq_succ_of_ne_zero hz
    simp only [natToCharsGo]
    intro hcontra
    rw [if_neg hz, natToCharsGo_acc] at hcontra
    simp at hcontra

theorem digitsVal_append_single (xs : List Char) (c : Char) :
    digitsVal (xs ++ [c]) = digitsVal xs * 10 + (c.toNat - 48) := by
  simp [digitsVal, List.foldl_append]

theorem natToChars_val (n : Nat) : digitsVal (natToChars n) = n := by
  unfold natToChars
  by_cases hz : n = 0
  · simp [hz]; decide
  · simp only [hz, if_false]
    suffices h : ∀ m, m ≠ 0 → ∀ fuel, m ≤ fuel → digitsVal (natToCharsGo fuel m []) = m by
      exact h n hz n le_rfl
    intro m
    induction m using Nat.strong_induction_on with
    | _ m ih =>
      intro hm fuel hfuel
      obtain ⟨f, rfl⟩ := Nat.exists_eq_succ_of_ne_zero
        (Nat.pos_iff_ne_zero.mp (lt_of_lt_of_le (Nat.pos_of_ne_zero hm) hfuel))
      simp only [natToCharsGo, hm, if_false]
      rw [natToCharsGo_acc]
      by_cases hsmall : m / 10 = 0
      · rw [hsmall, natToCharsGo_zero]
        simp [digitsVal]
        have : m < 10 := by omega
        rw [digitC_val (Nat.mod_lt m (by omega))]
        omega
      · rw [digitsVal_append_single, ih (m / 10) (Nat.div_lt_self (Nat.pos_of_ne_zero hm) (by omega)) hsmall f (by omega)]
        rw [digitC_val (Nat.mod_lt m (by omega))]
        omega

/-!
Helper lemmas: the scanners applied to constructed attribute text.
-/

theorem scanUnsigned_digits (n : Nat) (rest : List Char) :
    scanUnsigned (natToChars n ++ '"' :: rest) = some (n % 2 ^ 32, '"' :: rest) := by
  have hall := natToChars_all_digits n
  obtain ⟨d, ds, hds⟩ : ∃ d ds, natToChars n = d :: ds := by
    cases h : natToChars n with
    | nil => exact absurd h (natToChars_ne_nil n)
    | cons d ds => exact ⟨d, ds, rfl⟩
  have hd : isDigitC d = true := hall d (by rw [hds]; exact List.mem_cons_self d ds)
  have hprops := isDigitC_props hd
  have hdrop : (natToChars n ++ '"' :: rest).dropWhile isSpaceC = natToChars n ++ '"' :: rest := by
    rw [hds]; exact dropWhile_cons_false hprops.1
  have htake : (natToChars n ++ '"' :: rest).takeWhile isDigitC = natToChars n :=
    takeWhile_append_cons (fun c hc => hall c hc) (by decide)
  have hhead : (natToChars n ++ '"' :: rest).head? = some d := by rw [hds]; rfl
  have hsign : ¬((natToChars n ++ '"' :: rest).head? = some '-' ∨
      (natToChars n ++ '"' :: rest).head? = some '+') := by
    rw [hhead]
    rintro (hc | hc) <;> injection hc with hc <;>
      first
      | exact hprops.2.1 hc
      | exact hprops.2.2.1 hc
  have hnot_minus : ¬(natToChars n ++ '"' :: rest).head? = some '-' := by
    rw [hhead]; intro hc; injection hc with hc; exact hprops.2.1 hc
  simp only [scanUnsigned, hdrop, if_neg hsign, htake, List.drop_left]
  rw [if_neg (natToChars_ne_nil n), if_neg hnot_minus, natToChars_val]

theorem scanId_idAttr (n : Nat) (rest : List Char) :
    scanId (idAttr n ('"' :: rest)) = some (n % 2 ^ 32) := by
  have h4 : matchLit ['i', 'd', '=', '"'] (idAttr n ('"' :: rest)) =
      some (natToChars n ++ '"' :: rest) := by
    simp [idAttr, matchLit]
  simp [scanId, h4, scanUnsigned_digits]

theorem scanRef_refAttr (n : Nat) (rest : List Char) :
    scanRef ('r' :: 'e' :: 'f' :: '=' :: '"' :: (natToChars n ++ '"' :: rest)) =
      some (n % 2 ^ 32) := by
  have h5 : matchLit ['r', 'e', 'f', '=', '"']
      ('r' :: 'e' :: 'f' :: '=' :: '"' :: (natToChars n ++ '"' :: rest)) =
      some (natToChars n ++ '"' :: rest) := by
    simp [matchLit]
  simp [scanRef, h5, scanUnsigned_digits]

theorem selfClosing_idAttr (n : Nat) (tail : List Char) :
    selfClosing (idAttr n tail) = selfClosing tail := by
  unfold selfClosing idAttr
  rw [show 'i' :: 'd' :: '=' :: '"' :: (natToChars n ++ tail) =
      (['i', 'd', '=', '"'] ++ natToChars n) ++ tail by simp]
  rw [findSub_skip]
  intro x hx
  rcases List.mem_append.mp hx with hx' | hx'
  · intro hcontra; subst hcontra; simp at hx'
  · exact (isDigitC_props (natToChars_all_digits n x hx')).2.2.2.2.1

theorem scanNodeAttrs_selfTail (n : Nat) :
    scanNodeAttrs (idAttr n nodeSelfTail) = some (n % 2 ^ 32, ['0'], ['0']) := by
  have h4 : matchLit ['i', 'd', '=', '"'] (idAttr n nodeSelfTail) =
      some (natToChars n ++ nodeSelfTail) := by
    simp [idAttr, matchLit]
  have hrest : natToChars n ++ nodeSelfTail =
      natToChars n ++ '"' :: (' ' :: 'l' :: 'a' :: 't' :: '=' :: '"' :: '0' :: '"' :: ' ' ::
        'l' :: 'o' :: 'n' :: '=' :: '"' :: '0' :: '"' :: '/' :: '>' :: []) := rfl
  simp only [scanNodeAttrs, h4, hrest, scanUnsigned_digits]
  rfl

theorem scanNodeAttrs_openTail (n : Nat) :
    scanNodeAttrs (idAttr n nodeOpenTail) = some (n % 2 ^ 32, ['0'], ['0']) := by
  have h4 : matchLit ['i', 'd', '=', '"'] (idAttr n nodeOpenTail) =
      some (natToChars n ++ nodeOpenTail) := by
    simp [idAttr, matchLit]
  have hrest : natToChars n ++ nodeOpenTail =
      natToChars n ++ '"' :: (' ' :: 'l' :: 'a' :: 't' :: '=' :: '"' :: '0' :: '"' :: ' ' ::
        'l' :: 'o' :: 'n' :: '=' :: '"' :: '0' :: '"' :: '>' :: []) := rfl
  simp only [scanNodeAttrs, h4, hrest, scanUnsigned_digits]
  rfl

/-!
Helper lemmas: tag extraction and ingestion of the constructed lines.
-/

theorem isNameC_parts {c : Char} (h : isNameC c = true) :
    isSpaceC c = false ∧ ¬c = '/' := by
  simp only [isNameC, Bool.and_eq_true, Bool.not_eq_true', decide_eq_true_eq] at h
  exact ⟨h.1.1, by simpa using h.1.2⟩

theorem extractTag_shape (name attr : List Char) (hne : name ≠ [])
    (hnc : ∀ c ∈ name, isNameC c = true) :
    extractTag ('<' :: (name ++ ' ' :: attr)) = some (false, name, attr) := by
  obtain ⟨d, ds, rfl⟩ : ∃ d ds, name = d :: ds := by
    cases name with
    | nil => exact absurd rfl hne
    | cons d ds => exact ⟨d, ds, rfl⟩
  have hd := isNameC_parts (hnc d (List.mem_cons_self d ds))
  have hdrop1 : List.dropWhile (fun c => c != '<') ('<' :: (d :: (ds ++ ' ' :: attr))) =
      '<' :: (d :: (ds ++ ' ' :: attr)) := dropWhile_cons_false (by decide)
  have hdrop2 : List.dropWhile isSpaceC (d :: (ds ++ ' ' :: attr)) = d :: (ds ++ ' ' :: attr) :=
    dropWhile_cons_false hd.1
  have htake : List.takeWhile isNameC (d :: (ds ++ ' ' :: attr)) = d :: ds := by
    simpa using takeWhile_append_cons hnc (by decide)
  have hdropn : List.dropWhile isNameC (d :: (ds ++ ' ' :: attr)) = ' ' :: attr := by
    simpa using dropWhile_append_cons hnc (by decide)
  simp only [List.cons_append, extractTag, hdrop1, hdrop2]
  have hh : (d :: (ds ++ ' ' :: attr)).head? = some d := rfl
  rw [hh]
  simp [hd.2, htake, hdropn]

theorem ingest_nodeSelf (p : OsmParse) (hosm : p.in_osm = true) (hn : p.in_node = false)
    (hw : p.in_way = false) (hr : p.in_relation = false) (n : Nat) :
    osm_parse_ingest p (nodeSelfLine n) =
      ({ p with node := ⟨n % 2 ^ 32, ['0'], ['0'], []⟩ },
       some (Event.nodeDone ⟨n % 2 ^ 32, ['0'], ['0'], []⟩), false) := by
  have hext : extractTag (nodeSelfLine n) =
      some (false, ['n', 'o', 'd', 'e'], idAttr n nodeSelfTail) := by
    have := extractTag_shape ['n', 'o', 'd', 'e'] (idAttr n nodeSelfTail) (by decide) (by decide)
    simpa [nodeSelfLine] using this
  simp [osm_parse_ingest, hext, hosm, hn, hw, hr, scanNodeAttrs_selfTail,
    selfClosing_idAttr, show selfClosing nodeSelfTail = true by decide]

theorem ingest_nodeOpen (p : OsmParse) (hosm : p.in_osm = true) (hn : p.in_node = false)
    (hw : p.in_way = false) (hr : p.in_relation = false) (n : Nat) :
    osm_parse_ingest p (nodeOpenLine n) =
      ({ p with node := ⟨n % 2 ^ 32, ['0'], ['0'], []⟩, in_node := true }, none, false) := by
  have hext : extractTag (nodeOpenLine n) =
      some (false, ['n', 'o', 'd', 'e'], idAttr n nodeOpenTail) := by
    have := extractTag_shape ['n', 'o', 'd', 'e'] (idAttr n nodeOpenTail) (by decide) (by decide)
    simpa [nodeOpenLine] using this
  simp [osm_parse_ingest, hext, hosm, hn, hw, hr, scanNodeAttrs_openTail,
    selfClosing_idAttr, show selfClosing nodeOpenTail = false by decide]

theorem ingest_wayOpen (p : OsmParse) (hosm : p.in_osm = true) (hn : p.in_node = false)
    (hw : p.in_way = false) (hr : p.in_relation = false) (n : Nat) :
    osm_parse_ingest p (wayOpenLine n) =
      ({ p with way := ⟨n % 2 ^ 32, [], []⟩, in_way := true }, none, false) := by
  have hext : extractTag (wayOpenLine n) =
      some (false, ['w', 'a', 'y'], idAttr n ('"' :: '>' :: [])) := by
    have := extractTag_shape ['w', 'a', 'y'] (idAttr n ('"' :: '>' :: [])) (by decide) (by decide)
    simpa [wayOpenLine] using this
  simp [osm_parse_ingest, hext, hosm, hn, hw, hr, scanId_idAttr,
    selfClosing_idAttr, show selfClosing ('"' :: '>' :: []) = false by decide]

theorem ingest_waySelf (p : OsmParse) (hosm : p.in_osm = true) (hn : p.in_node = false)
    (hw : p.in_way = false) (hr : p.in_relation = false) (n : Nat) :
    osm_parse_ingest p (waySelfLine n) =
      ({ p with way := ⟨n % 2 ^ 32, [], []⟩ }, none, false) := by
  have hext : extractTag (waySelfLine n) =
      some (false, ['w', 'a', 'y'], idAttr n ('"' :: '/' :: '>' :: [])) := by
    have := extractTag_shape ['w', 'a', 'y'] (idAttr n ('"' :: '/' :: '>' :: []))
      (by decide) (by decide)
    simpa [waySelfLine] using this
  simp [osm_parse_ingest, hext, hosm, hn, hw, hr, scanId_idAttr,
    selfClosing_idAttr, show selfClosing ('"' :: '/' :: '>' :: []) = true by decide]

theorem ingest_relOpen (p : OsmParse) (hosm : p.in_osm = true) (hn : p.in_node = false)
    (hw : p.in_way = false) (hr : p.in_relation = false) (n : Nat) :
    osm_parse_ingest p (relOpenLine n) =
      ({ p with relation := ⟨n % 2 ^ 32, [], [], []⟩, in_relation := true }, none, false) := by
  have hext : extractTag (relOpenLine n) =
      some (false, ['r', 'e', 'l', 'a', 't', 'i', 'o', 'n'], idAttr n ('"' :: '>' :: [])) := by
    have := extractTag_shape ['r', 'e', 'l', 'a', 't', 'i', 'o', 'n']
      (idAttr n ('"' :: '>' :: [])) (by decide) (by decide)
    simpa [relOpenLine] using this
  simp [osm_parse_ingest, hext, hosm, hn, hw, hr, scanId_idAttr,
    selfClosing_idAttr, show selfClosing ('"' :: '>' :: []) = false by decide]

theorem ingest_relSelf (p : OsmParse) (hosm : p.in_osm = true) (hn : p.in_node = false)
    (hw : p.in_way = false) (hr : p.in_relation = false) (n : Nat) :
    osm_parse_ingest p (relSelfLine n) =
      ({ p with relation := ⟨n % 2 ^ 32, [], [], []⟩ }, none, false) := by
  have hext : extractTag (relSelfLine n) =
      some (false, ['r', 'e', 'l', 'a', 't', 'i', 'o', 'n'],
        idAttr n ('"' :: '/' :: '>' :: [])) := by
    have := extractTag_shape ['r', 'e', 'l', 'a', 't', 'i', 'o', 'n']
      (idAttr n ('"' :: '/' :: '>' :: [])) (by decide) (by decide)
    simpa [relSelfLine] using this
  simp [osm_parse_ingest, hext, hosm, hn, hw, hr, scanId_idAttr,
    selfClosing_idAttr, show selfClosing ('"' :: '/' :: '>' :: []) = true by decide]

theorem findSub_role (n : Nat) (tail : List Char) :
    findSub ['r', 'o', 'l', 'e', '=', '"']
      ('r' :: 'e' :: 'f' :: '=' :: '"' ::
        (natToChars n ++ '"' :: ' ' :: 'r' :: 'o' :: 'l' :: 'e' :: '=' :: '"' :: tail)) =
    some ('r' :: 'o' :: 'l' :: 'e' :: '=' :: '"' :: tail) := by
  have hskip : findSub ['r', 'o', 'l', 'e', '=', '"']
      (natToChars n ++ '"' :: ' ' :: 'r' :: 'o' :: 'l' :: 'e' :: '=' :: '"' :: tail) =
      findSub ['r', 'o', 'l', 'e', '=', '"']
        ('"' :: ' ' :: 'r' :: 'o' :: 'l' :: 'e' :: '=' :: '"' :: tail) :=
    findSub_skip fun x hx => (isDigitC_props (natToChars_all_digits n x hx)).2.2.2.2.2.1
  simp [findSub, List.isPrefixOf, hskip, isPrefixOf_append_self_list]

theorem ingest_nd (p : OsmParse) (hosm : p.in_osm = true) (hn : p.in_node = false)
    (hw : p.in_way = true) (n : Nat) :
    osm_parse_ingest p (ndLine n) =
      ({ p with way := { p.way with nodes := p.way.nodes ++ [n % 2 ^ 32] } }, none, false) := by
  have hext : extractTag (ndLine n) =
      some (false, ['n', 'd'],
        'r' :: 'e' :: 'f' :: '=' :: '"' :: (natToChars n ++ '"' :: '/' :: '>' :: [])) := by
    have := extractTag_shape ['n', 'd']
      ('r' :: 'e' :: 'f' :: '=' :: '"' :: (natToChars n ++ '"' :: '/' :: '>' :: []))
      (by decide) (by decide)
    simpa [ndLine] using this
  simp [osm_parse_ingest, hext, hosm, hn, hw, scanRef_refAttr]

theorem ingest_memberWay (p : OsmParse) (hosm : p.in_osm = true) (hn : p.in_node = false)
    (hw : p.in_way = false) (hr : p.in_relation = true) (n : Nat) :
    osm_parse_ingest p (memberWayLine n) =
      ({ p with relation :=
          { p.relation with ways := p.relation.ways ++ [(n % 2 ^ 32, [])] } }, none, false) := by
  have hext : extractTag (memberWayLine n) =
      some (false, ['m', 'e', 'm', 'b', 'e', 'r'],
        't' :: 'y' :: 'p' :: 'e' :: '=' :: '"' :: 'w' :: 'a' :: 'y' :: '"' :: ' ' ::
        'r' :: 'e' :: 'f' :: '=' :: '"' ::
        (natToChars n ++ '"' :: ' ' :: 'r' :: 'o' :: 'l' :: 'e' :: '=' :: '"' :: '"' :: '/' :: '>' :: [])) := by
    have := extractTag_shape ['m', 'e', 'm', 'b', 'e', 'r']
      ('t' :: 'y' :: 'p' :: 'e' :: '=' :: '"' :: 'w' :: 'a' :: 'y' :: '"' :: ' ' ::
       'r' :: 'e' :: 'f' :: '=' :: '"' ::
       (natToChars n ++ '"' :: ' ' :: 'r' :: 'o' :: 'l' :: 'e' :: '=' :: '"' :: '"' :: '/' :: '>' :: []))
      (by decide) (by decide)
    simpa [memberWayLine] using this
  simp [osm_parse_ingest, hext, hosm, hn, hw, hr, List.isPrefixOf, scanRef_refAttr,
    findSub_role, read_string, read_string_go]

theorem ingest_memberNode (p : OsmParse) (hosm : p.in_osm = true) (hn : p.in_node = false)
    (hw : p.in_way = false) (hr : p.in_relation = true) (n : Nat) :
    osm_parse_ingest p (memberNodeLine n) =
      ({ p with relation :=
          { p.relation with nodes := p.relation.nodes ++ [(n % 2 ^ 32, [])] } }, none, false) := by
  have hext : extractTag (memberNodeLine n) =
      some (false, ['m', 'e', 'm', 'b', 'e', 'r'],
        't' :: 'y' :: 'p' :: 'e' :: '=' :: '"' :: 'n' :: 'o' :: 'd' :: 'e' :: '"' :: ' ' ::
        'r' :: 'e' :: 'f' :: '=' :: '"' ::
        (natToChars n ++ '"' :: ' ' :: 'r' :: 'o' :: 'l' :: 'e' :: '=' :: '"' :: '"' :: '/' :: '>' :: [])) := by
    have := extractTag_shape ['m', 'e', 'm', 'b', 'e', 'r']
      ('t' :: 'y' :: 'p' :: 'e' :: '=' :: '"' :: 'n' :: 'o' :: 'd' :: 'e' :: '"' :: ' ' ::
       'r' :: 'e' :: 'f' :: '=' :: '"' ::
       (natToChars n ++ '"' :: ' ' :: 'r' :: 'o' :: 'l' :: 'e' :: '=' :: '"' :: '"' :: '/' :: '>' :: []))
      (by decide) (by decide)
    simpa [memberNodeLine] using this
  simp [osm_parse_ingest, hext, hosm, hn, hw, hr, List.isPrefixOf, scanRef_refAttr,
    findSub_role, read_string, read_string_go]

theorem ingest_tagRailwayStation_node (p : OsmParse) (hosm : p.in_osm = true)
    (hn : p.in_node = true) :
    osm_parse_ingest p tagRailwayStationLine =
      ({ p with node := { p.node with tags := p.node.tags ++
          [⟨['r', 'a', 'i', 'l', 'w', 'a', 'y'], ['s', 't', 'a', 't', 'i', 'o', 'n']⟩] } },
       none, false) := by
  have hext : extractTag tagRailwayStationLine =
      some (false, ['t', 'a', 'g'],
        ('k' :: '=' :: '"' :: 'r' :: 'a' :: 'i' :: 'l' :: 'w' :: 'a' :: 'y' :: '"' :: ' ' ::
         'v' :: '=' :: '"' :: 's' :: 't' :: 'a' :: 't' :: 'i' :: 'o' :: 'n' :: '"' :: '/' :: '>' :: [])) := by
    decide
  have hpt : parse_tag
      ('k' :: '=' :: '"' :: 'r' :: 'a' :: 'i' :: 'l' :: 'w' :: 'a' :: 'y' :: '"' :: ' ' ::
       'v' :: '=' :: '"' :: 's' :: 't' :: 'a' :: 't' :: 'i' :: 'o' :: 'n' :: '"' :: '/' :: '>' :: []) =
      some ⟨['r', 'a', 'i', 'l', 'w', 'a', 'y'], ['s', 't', 'a', 't', 'i', 'o', 'n']⟩ := by
    decide
  simp [osm_parse_ingest, hext, hosm, hn, hpt]

theorem ingest_tagRouteTrain_rel (p : OsmParse) (hosm : p.in_osm = true)
    (hn : p.in_node = false) (hw : p.in_way = false) (hr : p.in_relation = true) :
    osm_parse_ingest p tagRouteTrainLine =
      ({ p with relation := { p.relation with tags := p.relation.tags ++
          [⟨['r', 'o', 'u', 't', 'e'], ['t', 'r', 'a', 'i', 'n']⟩] } }, none, false) := by
  have hext : extractTag tagRouteTrainLine =
      some (false, ['t', 'a', 'g'],
        ('k' :: '=' :: '"' :: 'r' :: 'o' :: 'u' :: 't' :: 'e' :: '"' :: ' ' ::
         'v' :: '=' :: '"' :: 't' :: 'r' :: 'a' :: 'i' :: 'n' :: '"' :: '/' :: '>' :: [])) := by
    decide
  have hpt : parse_tag
      ('k' :: '=' :: '"' :: 'r' :: 'o' :: 'u' :: 't' :: 'e' :: '"' :: ' ' ::
       'v' :: '=' :: '"' :: 't' :: 'r' :: 'a' :: 'i' :: 'n' :: '"' :: '/' :: '>' :: []) =
      some ⟨['r', 'o', 'u', 't', 'e'], ['t', 'r', 'a', 'i', 'n']⟩ := by
    decide
  simp [osm_parse_ingest, hext, hosm, hn, hw, hr, hpt]

theorem ingest_nodeEnd (p : OsmParse) (hosm : p.in_osm = true) (hn : p.in_node = true) :
    osm_parse_ingest p nodeEndLine =
      ({ p with in_node := false }, some (Event.nodeDone p.node), false) := by
  have hext : extractTag nodeEndLine = some (true, ['n', 'o', 'd', 'e'], []) := by decide
  simp [osm_parse_ingest, hext, hosm, hn]

theorem ingest_wayEnd (p : OsmParse) (hosm : p.in_osm = true) (hn : p.in_node = false)
    (hw : p.in_way = true) :
    osm_parse_ingest p wayEndLine =
      ({ p with in_way := false }, some (Event.wayDone p.way), false) := by
  have hext : extractTag wayEndLine = some (true, ['w', 'a', 'y'], []) := by decide
  simp [osm_parse_ingest, hext, hosm, hn, hw]

theorem ingest_relEnd (p : OsmParse) (hosm : p.in_osm = true) (hn : p.in_node = false)
    (hw : p.in_way = false) (hr : p.in_relation = true) :
    osm_parse_ingest p relEndLine =
      ({ p with in_relation := false }, some (Event.relationDone p.relation), false) := by
  have hext : extractTag relEndLine =
      some (true, ['r', 'e', 'l', 'a', 't', 'i', 'o', 'n'], []) := by decide
  simp [osm_parse_ingest, hext, hosm, hn, hw, hr]

theorem ingest_osmEnd (p : OsmParse) (hosm : p.in_osm = true) (hn : p.in_node = false)
    (hw : p.in_way = false) (hr : p.in_relation = false) :
    osm_parse_ingest p osmEndLine = (p, none, true) := by
  have hext : extractTag osmEndLine = some (true, ['o', 's', 'm'], []) := by decide
  simp [osm_parse_ingest, hext, hosm, hn, hw, hr]

theorem ingest_osmOpen (p : OsmParse) (hosm : p.in_osm = false) :
    osm_parse_ingest p osmOpenLine = ({ p with in_osm := true }, none, false) := by
  have hext : extractTag osmOpenLine =
      some (false, ['o', 's', 'm'],
        ('v' :: 'e' :: 'r' :: 's' :: 'i' :: 'o' :: 'n' :: '=' :: '"' :: '0' :: '.' :: '6' ::
         '"' :: '>' :: [])) := by
    decide
  simp [osm_parse_ingest, hext, hosm]

/-!
Helper lemmas: pass driver, comparator, binary search, finalisation.
-/

theorem runPass_step {α : Type} (handle : Event → α → α) {p p' : OsmParse} {ev : Option Event}
    (line : List Char) (rest : List (List Char)) (acc : α)
    (hing : osm_parse_ingest p line = (p', ev, false)) :
    runPass handle p acc (line :: rest) =
      runPass handle p' (match ev with | some e => handle e acc | none => acc) rest := by
  cases ev <;> simp [runPass, hing]

theorem runPass_last {α : Type} (handle : Event → α → α) {p p' : OsmParse} {ev : Option Event}
    (line : List Char) (rest : List (List Char)) (acc : α)
    (hing : osm_parse_ingest p line = (p', ev, true)) :
    runPass handle p acc (line :: rest) =
      (match ev with | some e => handle e acc | none => acc) := by
  cases ev <;> simp [runPass, hing]

theorem cmp_id_self (a : Nat) : cmp_id a a = 0 := by
  have h : (a % 2 ^ 32 + (2 ^ 32 - a % 2 ^ 32)) % 2 ^ 32 = 0 := by
    have := Nat.mod_lt a (show 0 < 2 ^ 32 by norm_num)
    omega
  simp only [cmp_id, h]
  norm_num

theorem cmp_id_ne_zero {a b : Nat} (ha : a < 2 ^ 32) (hb : b < 2 ^ 32) (hne : a ≠ b) :
    ¬cmp_id a b = 0 := by
  have ha' : a % 2 ^ 32 = a := Nat.mod_eq_of_lt ha
  have hb' : b % 2 ^ 32 = b := Nat.mod_eq_of_lt hb
  have hd : (a % 2 ^ 32 + (2 ^ 32 - b % 2 ^ 32)) % 2 ^ 32 ≠ 0 := by
    rw [ha', hb']
    omega
  have hdlt : (a % 2 ^ 32 + (2 ^ 32 - b % 2 ^ 32)) % 2 ^ 32 < 2 ^ 32 :=
    Nat.mod_lt _ (by norm_num)
  simp only [cmp_id]
  split
  · exact_mod_cast hd
  · intro hcontra
    omega

theorem bsearchId_singleton_self (a : Nat) : bsearchId a [a] = true := by
  show bsearchGo 2 a 0 1 [a] = true
  simp [bsearchGo, cmp_id_self]

theorem bsearchId_singleton_ne {a b : Nat} (ha : a < 2 ^ 32) (hb : b < 2 ^ 32) (hne : a ≠ b) :
    bsearchId a [b] = false := by
  have h := cmp_id_ne_zero ha hb hne
  show bsearchGo 2 a 0 1 [b] = false
  rcases lt_trichotomy (cmp_id a b) 0 with hlt | heq | hgt
  · simp [bsearchGo, hlt]
  · exact absurd heq h
  · simp [bsearchGo, hgt, not_lt.mpr (le_of_lt hgt)]

theorem finalize_singleton (junk x : Nat) : finalize junk [x] = [x] := rfl

theorem check_tags_nil (wanted : List OsmTag) : check_tags [] wanted = false := rfl

/-!
The three passes over the closure dataset, and claim C1.
-/

theorem pass1_dsClosure (m n pw g : Nat) :
    runPass pass1Handle osm_parse_init (⟨filterTags, [], [], []⟩ : OsmParams)
      (dsClosure m n pw g) =
    ⟨filterTags, [], [pw % 2 ^ 32], [g % 2 ^ 32]⟩ := by
  rw [dsClosure,
      runPass_step pass1Handle _ _ _ (ingest_osmOpen _ rfl),
      runPass_step pass1Handle _ _ _ (ingest_nodeSelf _ rfl rfl rfl rfl m),
      runPass_step pass1Handle _ _ _ (ingest_nodeSelf _ rfl rfl rfl rfl n),
      runPass_step pass1Handle _ _ _ (ingest_wayOpen _ rfl rfl rfl rfl pw),
      runPass_step pass1Handle _ _ _ (ingest_nd _ rfl rfl rfl m),
      runPass_step pass1Handle _ _ _ (ingest_wayEnd _ rfl rfl rfl),
      runPass_step pass1Handle _ _ _ (ingest_relOpen _ rfl rfl rfl rfl g),
      runPass_step pass1Handle _ _ _ (ingest_memberWay _ rfl rfl rfl rfl pw),
      runPass_step pass1Handle _ _ _ (ingest_tagRouteTrain_rel _ rfl rfl rfl rfl),
      runPass_step pass1Handle _ _ _ (ingest_relEnd _ rfl rfl rfl rfl),
      runPass_last pass1Handle _ _ _ (ingest_osmEnd _ rfl rfl rfl rfl)]
  simp [pass1Handle, load_node, load_way_1, load_relation, check_tags, filterTags]

theorem pass2_dsClosure (m n pw g : Nat) :
    runPass pass2Handle osm_parse_init
      (⟨filterTags, [], [pw % 2 ^ 32], [g % 2 ^ 32]⟩ : OsmParams) (dsClosure m n pw g) =
    ⟨filterTags, [m % 2 ^ 32], [pw % 2 ^ 32], [g % 2 ^ 32]⟩ := by
  rw [dsClosure,
      runPass_step pass2Handle _ _ _ (ingest_osmOpen _ rfl),
      runPass_step pass2Handle _ _ _ (ingest_nodeSelf _ rfl rfl rfl rfl m),
      runPass_step pass2Handle _ _ _ (ingest_nodeSelf _ rfl rfl rfl rfl n),
      runPass_step pass2Handle _ _ _ (ingest_wayOpen _ rfl rfl rfl rfl pw),
      runPass_step pass2Handle _ _ _ (ingest_nd _ rfl rfl rfl m),
      runPass_step pass2Handle _ _ _ (ingest_wayEnd _ rfl rfl rfl),
      runPass_step pass2Handle _ _ _ (ingest_relOpen _ rfl rfl rfl rfl g),
      runPass_step pass2Handle _ _ _ (ingest_memberWay _ rfl rfl rfl rfl pw),
      runPass_step pass2Handle _ _ _ (ingest_tagRouteTrain_rel _ rfl rfl rfl rfl),
      runPass_step pass2Handle _ _ _ (ingest_relEnd _ rfl rfl rfl rfl),
      runPass_last pass2Handle _ _ _ (ingest_osmEnd _ rfl rfl rfl rfl)]
  simp [pass2Handle, load_way_2, bsearchId_singleton_self]

theorem pass3_dsClosure (m n pw g : Nat) (hmn : ¬m % 2 ^ 32 = n % 2 ^ 32) :
    runPass (pass3Handle ⟨filterTags, [m % 2 ^ 32], [pw % 2 ^ 32], [g % 2 ^ 32]⟩)
      osm_parse_init [] (dsClosure m n pw g) =
    [Event.nodeDone ⟨m % 2 ^ 32, ['0'], ['0'], []⟩,
     Event.wayDone ⟨pw % 2 ^ 32, [m % 2 ^ 32], []⟩,
     Event.relationDone ⟨g % 2 ^ 32, [], [(pw % 2 ^ 32, [])],
       [⟨['r', 'o', 'u', 't', 'e'], ['t', 'r', 'a', 'i', 'n']⟩]⟩] := by
  have h2 : (2 : Nat) ^ 32 = 4294967296 := by norm_num
  have hdrop : bsearchId (n % 4294967296) [m % 4294967296] = false := by
    refine bsearchId_singleton_ne ?_ ?_ ?_
    · rw [h2]; exact Nat.mod_lt _ (by norm_num)
    · rw [h2]; exact Nat.mod_lt _ (by norm_num)
    · rw [h2] at hmn; exact fun hc => hmn hc.symm
  rw [dsClosure,
      runPass_step _ _ _ _ (ingest_osmOpen _ rfl),
      runPass_step _ _ _ _ (ingest_nodeSelf _ rfl rfl rfl rfl m),
      runPass_step _ _ _ _ (ingest_nodeSelf _ rfl rfl rfl rfl n),
      runPass_step _ _ _ _ (ingest_wayOpen _ rfl rfl rfl rfl pw),
      runPass_step _ _ _ _ (ingest_nd _ rfl rfl rfl m),
      runPass_step _ _ _ _ (ingest_wayEnd _ rfl rfl rfl),
      runPass_step _ _ _ _ (ingest_relOpen _ rfl rfl rfl rfl g),
      runPass_step _ _ _ _ (ingest_memberWay _ rfl rfl rfl rfl pw),
      runPass_step _ _ _ _ (ingest_tagRouteTrain_rel _ rfl rfl rfl rfl),
      runPass_step _ _ _ _ (ingest_relEnd _ rfl rfl rfl rfl),
      runPass_last _ _ _ _ (ingest_osmEnd _ rfl rfl rfl rfl)]
  simp [pass3Handle, output_node, output_way, output_relation,
    bsearchId_singleton_self, hdrop]

/-- C1: for a dataset containing a group G whose tags match the filter
(`route=train`), a path P that is a way member of G and whose own tags do
not match the filter (P carries no tags), a point M that is a member
point of P, and an unrelated point N matching nothing, the three-pass run
emits exactly G, P and M (each via its pass-3 membership test) and emits
nothing for N.  IDs are arbitrary 32-bit values with M and N distinct;
`junk` is the indeterminate cell of an empty-set finalisation, unused on
this dataset. -/
theorem closure_retains_matches_and_drops_unrelated (junk m n pw g : Nat)
    (hm : m < 2 ^ 32) (hn : n < 2 ^ 32) (hp : pw < 2 ^ 32) (hg : g < 2 ^ 32)
    (hmn : m ≠ n) :
    osmrail_run junk (dsClosure m n pw g) =
      [Event.nodeDone ⟨m, ['0'], ['0'], []⟩,
       Event.wayDone ⟨pw, [m], []⟩,
       Event.relationDone ⟨g, [], [(pw, [])],
         [⟨['r', 'o', 'u', 't', 'e'], ['t', 'r', 'a', 'i', 'n']⟩]⟩] ∧
    ∀ e ∈ osmrail_run junk (dsClosure m n pw g),
      e ≠ Event.nodeDone ⟨n, ['0'], ['0'], []⟩ := by
  have hm' : m % 2 ^ 32 = m := Nat.mod_eq_of_lt hm
  have hn' : n % 2 ^ 32 = n := Nat.mod_eq_of_lt hn
  have hp' : pw % 2 ^ 32 = pw := Nat.mod_eq_of_lt hp
  have hg' : g % 2 ^ 32 = g := Nat.mod_eq_of_lt hg
  have hmn' : ¬m % 2 ^ 32 = n % 2 ^ 32 := by rw [hm', hn']; exact hmn
  have hrun : osmrail_run junk (dsClosure m n pw g) =
      [Event.nodeDone ⟨m, ['0'], ['0'], []⟩,
       Event.wayDone ⟨pw, [m], []⟩,
       Event.relationDone ⟨g, [], [(pw, [])],
         [⟨['r', 'o', 'u', 't', 'e'], ['t', 'r', 'a', 'i', 'n']⟩]⟩] := by
    simp only [osmrail_run, pass1_dsClosure]
    rw [show ({ (⟨filterTags, [], [pw % 2 ^ 32], [g % 2 ^ 32]⟩ : OsmParams) with
        wayIds := finalize junk [pw % 2 ^ 32] } : OsmParams) =
        ⟨filterTags, [], [pw % 2 ^ 32], [g % 2 ^ 32]⟩ from by rw [finalize_singleton]]
    rw [pass2_dsClosure]
    rw [show ({ (⟨filterTags, [m % 2 ^ 32], [pw % 2 ^ 32], [g % 2 ^ 32]⟩ : OsmParams) with
        nodeIds := finalize junk [m % 2 ^ 32] } : OsmParams) =
        ⟨filterTags, [m % 2 ^ 32], [pw % 2 ^ 32], [g % 2 ^ 32]⟩ from by rw [finalize_singleton]]
    rw [pass3_dsClosure m n pw g hmn', hm', hp', hg']
  refine ⟨hrun, ?_⟩
  rw [hrun]
  intro e he
  simp only [List.mem_cons, List.not_mem_nil, or_false] at he
  rcases he with rfl | rfl | rfl <;> simp [hmn]

/-- Witness for C1 at concrete IDs 3, 4, 5, 6. -/
theorem closure_retains_matches_and_drops_unrelated_witness :
    osmrail_run 0 (dsClosure 3 4 5 6) =
      [Event.nodeDone ⟨3, ['0'], ['0'], []⟩,
       Event.wayDone ⟨5, [3], []⟩,
       Event.relationDone ⟨6, [], [(5, [])],
         [⟨['r', 'o', 'u', 't', 'e'], ['t', 'r', 'a', 'i', 'n']⟩]⟩] ∧
    ∀ e ∈ osmrail_run 0 (dsClosure 3 4 5 6),
      e ≠ Event.nodeDone ⟨4, ['0'], ['0'], []⟩ :=
  closure_retains_matches_and_drops_unrelated 0 3 4 5 6 (by norm_num) (by norm_num)
    (by norm_num) (by norm_num) (by norm_num)

theorem pass1_dsPointMember (q r g : Nat) :
    runPass pass1Handle osm_parse_init (⟨filterTags, [], [], []⟩ : OsmParams)
      (dsPointMember q r g) =
    ⟨filterTags, [r % 2 ^ 32], [], [g % 2 ^ 32]⟩ := by
  rw [dsPointMember,
      runPass_step pass1Handle _ _ _ (ingest_osmOpen _ rfl),
      runPass_step pass1Handle _ _ _ (ingest_nodeSelf _ rfl rfl rfl rfl q),
      runPass_step pass1Handle _ _ _ (ingest_nodeOpen _ rfl rfl rfl rfl r),
      runPass_step pass1Handle _ _ _ (ingest_tagRailwayStation_node _ rfl rfl),
      runPass_step pass1Handle _ _ _ (ingest_nodeEnd _ rfl rfl),
      runPass_step pass1Handle _ _ _ (ingest_relOpen _ rfl rfl rfl rfl g),
      runPass_step pass1Handle _ _ _ (ingest_memberNode _ rfl rfl rfl rfl q),
      runPass_step pass1Handle _ _ _ (ingest_tagRouteTrain_rel _ rfl rfl rfl rfl),
      runPass_step pass1Handle _ _ _ (ingest_relEnd _ rfl rfl rfl rfl),
      runPass_last pass1Handle _ _ _ (ingest_osmEnd _ rfl rfl rfl rfl)]
  simp [pass1Handle, load_node, load_way_1, load_relation, check_tags, filterTags]

theorem pass2_dsPointMember (q r g junk : Nat) :
    runPass pass2Handle osm_parse_init
      (⟨filterTags, [r % 2 ^ 32], [junk], [g % 2 ^ 32]⟩ : OsmParams) (dsPointMember q r g) =
    ⟨filterTags, [r % 2 ^ 32], [junk], [g % 2 ^ 32]⟩ := by
  rw [dsPointMember,
      runPass_step pass2Handle _ _ _ (ingest_osmOpen _ rfl),
      runPass_step pass2Handle _ _ _ (ingest_nodeSelf _ rfl rfl rfl rfl q),
      runPass_step pass2Handle _ _ _ (ingest_nodeOpen _ rfl rfl rfl rfl r),
      runPass_step pass2Handle _ _ _ (ingest_tagRailwayStation_node _ rfl rfl),
      runPass_step pass2Handle _ _ _ (ingest_nodeEnd _ rfl rfl),
      runPass_step pass2Handle _ _ _ (ingest_relOpen _ rfl rfl rfl rfl g),
      runPass_step pass2Handle _ _ _ (ingest_memberNode _ rfl rfl rfl rfl q),
      runPass_step pass2Handle _ _ _ (ingest_tagRouteTrain_rel _ rfl rfl rfl rfl),
      runPass_step pass2Handle _ _ _ (ingest_relEnd _ rfl rfl rfl rfl),
      runPass_last pass2Handle _ _ _ (ingest_osmEnd _ rfl rfl rfl rfl)]
  simp [pass2Handle]

theorem pass3_dsPointMember (q r g junk : Nat) (hqr : ¬q % 2 ^ 32 = r % 2 ^ 32) :
    runPass (pass3Handle ⟨filterTags, [r % 2 ^ 32], [junk], [g % 2 ^ 32]⟩)
      osm_parse_init [] (dsPointMember q r g) =
    [Event.nodeDone ⟨r % 2 ^ 32, ['0'], ['0'],
       [⟨['r', 'a', 'i', 'l', 'w', 'a', 'y'], ['s', 't', 'a', 't', 'i', 'o', 'n']⟩]⟩,
     Event.relationDone ⟨g % 2 ^ 32, [(q % 2 ^ 32, [])], [],
       [⟨['r', 'o', 'u', 't', 'e'], ['t', 'r', 'a', 'i', 'n']⟩]⟩] := by
  have h2 : (2 : Nat) ^ 32 = 4294967296 := by norm_num
  have hdrop : bsearchId (q % 4294967296) [r % 4294967296] = false := by
    refine bsearchId_singleton_ne ?_ ?_ ?_
    · rw [h2]; exact Nat.mod_lt _ (by norm_num)
    · rw [h2]; exact Nat.mod_lt _ (by norm_num)
    · rw [h2] at hqr; exact hqr
  rw [dsPointMember,
      runPass_step _ _ _ _ (ingest_osmOpen _ rfl),
      runPass_step _ _ _ _ (ingest_nodeSelf _ rfl rfl rfl rfl q),
      runPass_step _ _ _ _ (ingest_nodeOpen _ rfl rfl rfl rfl r),
      runPass_step _ _ _ _ (ingest_tagRailwayStation_node _ rfl rfl),
      runPass_step _ _ _ _ (ingest_nodeEnd _ rfl rfl),
      runPass_step _ _ _ _ (ingest_relOpen _ rfl rfl rfl rfl g),
      runPass_step _ _ _ _ (ingest_memberNode _ rfl rfl rfl rfl q),
      runPass_step _ _ _ _ (ingest_tagRouteTrain_rel _ rfl rfl rfl rfl),
      runPass_step _ _ _ _ (ingest_relEnd _ rfl rfl rfl rfl),
      runPass_last _ _ _ _ (ingest_osmEnd _ rfl rfl rfl rfl)]
  simp [pass3Handle, output_node, output_way, output_relation,
    bsearchId_singleton_self, hdrop]

/-- C9: pass 1 records only a matching relation's own ID and its
way-member IDs — `load_relation` never touches the point ID set — and a
point Q referenced only as a point member of a matching group G is
absent from the output, although the emitted group record still lists
the member reference `(Q, role)`.  R is a second point whose tag
`railway=station` matches the filter (so the finalised point set is
non-empty). -/
theorem point_members_never_pulled_in (junk q r g : Nat)
    (hq : q < 2 ^ 32) (hr : r < 2 ^ 32) (hg : g < 2 ^ 32) (hqr : q ≠ r) :
    (∀ (rel : OsmRelation) (osm : OsmParams), (load_relation rel osm).nodeIds = osm.nodeIds) ∧
    osmrail_run junk (dsPointMember q r g) =
      [Event.nodeDone ⟨r, ['0'], ['0'],
         [⟨['r', 'a', 'i', 'l', 'w', 'a', 'y'], ['s', 't', 'a', 't', 'i', 'o', 'n']⟩]⟩,
       Event.relationDone ⟨g, [(q, [])], [],
         [⟨['r', 'o', 'u', 't', 'e'], ['t', 'r', 'a', 'i', 'n']⟩]⟩] ∧
    ∀ (la lo : List Char) (tg : List OsmTag),
      Event.nodeDone ⟨q, la, lo, tg⟩ ∉ osmrail_run junk (dsPointMember q r g) := by
  have hq' : q % 2 ^ 32 = q := Nat.mod_eq_of_lt hq
  have hr' : r % 2 ^ 32 = r := Nat.mod_eq_of_lt hr
  have hg' : g % 2 ^ 32 = g := Nat.mod_eq_of_lt hg
  have hqr' : ¬q % 2 ^ 32 = r % 2 ^ 32 := by rw [hq', hr']; exact hqr
  have hrun : osmrail_run junk (dsPointMember q r g) =
      [Event.nodeDone ⟨r, ['0'], ['0'],
         [⟨['r', 'a', 'i', 'l', 'w', 'a', 'y'], ['s', 't', 'a', 't', 'i', 'o', 'n']⟩]⟩,
       Event.relationDone ⟨g, [(q, [])], [],
         [⟨['r', 'o', 'u', 't', 'e'], ['t', 'r', 'a', 'i', 'n']⟩]⟩] := by
    simp only [osmrail_run, pass1_dsPointMember]
    rw [show ({ (⟨filterTags, [r % 2 ^ 32], [], [g % 2 ^ 32]⟩ : OsmParams) with
        wayIds := finalize junk [] } : OsmParams) =
        ⟨filterTags, [r % 2 ^ 32], [junk], [g % 2 ^ 32]⟩ from rfl]
    rw [pass2_dsPointMember]
    rw [show ({ (⟨filterTags, [r % 2 ^ 32], [junk], [g % 2 ^ 32]⟩ : OsmParams) with
        nodeIds := finalize junk [r % 2 ^ 32] } : OsmParams) =
        ⟨filterTags, [r % 2 ^ 32], [junk], [g % 2 ^ 32]⟩ from by rw [finalize_singleton]]
    rw [pass3_dsPointMember q r g junk hqr', hq', hr', hg']
  refine ⟨fun rel osm => by unfold load_relation; split <;> rfl, hrun, ?_⟩
  rw [hrun]
  intro la lo tg hmem
  simp only [List.mem_cons, List.not_mem_nil, or_false] at hmem
  rcases hmem with heq | heq
  · have := congrArg (fun e => match e with
      | Event.nodeDone nd => nd.id
      | _ => 0) heq
    simp at this
    exact hqr this
  · exact Event.noConfusion heq

/-- Witness for C9 at concrete IDs 7, 8, 9. -/
theorem point_members_never_pulled_in_witness :
    (∀ (rel : OsmRelation) (osm : OsmParams), (load_relation rel osm).nodeIds = osm.nodeIds) ∧
    osmrail_run 0 (dsPointMember 7 8 9) =
      [Event.nodeDone ⟨8, ['0'], ['0'],
         [⟨['r', 'a', 'i', 'l', 'w', 'a', 'y'], ['s', 't', 'a', 't', 'i', 'o', 'n']⟩]⟩,
       Event.relationDone ⟨9, [(7, [])], [],
         [⟨['r', 'o', 'u', 't', 'e'], ['t', 'r', 'a', 'i', 'n']⟩]⟩] ∧
    ∀ (la lo : List Char) (tg : List OsmTag),
      Event.nodeDone ⟨7, la, lo, tg⟩ ∉ osmrail_run 0 (dsPointMember 7 8 9) :=
  point_members_never_pulled_in 0 7 8 9 (by norm_num) (by norm_num) (by norm_num)
    (by norm_num)

/-!
Claims C2 (self-closing features) and C10 (parser state invariant).
-/

/-- C2 counterexample: from the in-document state, the self-closing line
`<way id="1"/>` completes a zero-child way — the way record is filled in —
but the ingest reports NO completed feature (the C code's way branch
executes `; /* do nothing */` instead of invoking the way callback, and
likewise for relations), while the same shape of node line does fire the
node callback.  The claim states that the callback fires for all three
feature kinds. -/
theorem selfclosing_way_no_callback :
    osm_parse_ingest parse_in_doc (waySelfLine 1) =
      ({ parse_in_doc with way := ⟨1, [], []⟩ }, none, false) ∧
    osm_parse_ingest parse_in_doc (relSelfLine 1) =
      ({ parse_in_doc with relation := ⟨1, [], [], []⟩ }, none, false) ∧
    (osm_parse_ingest parse_in_doc (nodeSelfLine 1)).2.1 =
      some (Event.nodeDone ⟨1, ['0'], ['0'], []⟩) := by
  decide

/-- C2 amended: a self-closing point opening tag completes the feature
immediately as a zero-child feature and fires the node callback before
the parser returns to the document level; a self-closing path or group
opening tag completes the feature as a zero-child record but fires no
callback, the parser staying at the document level. -/
theorem selfclosing_callbacks_amended (p : OsmParse) (hosm : p.in_osm = true)
    (hn : p.in_node = false) (hw : p.in_way = false) (hr : p.in_relation = false) (n : Nat) :
    osm_parse_ingest p (nodeSelfLine n) =
      ({ p with node := ⟨n % 2 ^ 32, ['0'], ['0'], []⟩ },
       some (Event.nodeDone ⟨n % 2 ^ 32, ['0'], ['0'], []⟩), false) ∧
    osm_parse_ingest p (waySelfLine n) =
      ({ p with way := ⟨n % 2 ^ 32, [], []⟩ }, none, false) ∧
    osm_parse_ingest p (relSelfLine n) =
      ({ p with relation := ⟨n % 2 ^ 32, [], [], []⟩ }, none, false) :=
  ⟨ingest_nodeSelf p hosm hn hw hr n, ingest_waySelf p hosm hn hw hr n,
   ingest_relSelf p hosm hn hw hr n⟩

/-- Witness for the amended C2 at the in-document state and ID 2. -/
theorem selfclosing_callbacks_amended_witness :
    osm_parse_ingest parse_in_doc (nodeSelfLine 2) =
      ({ parse_in_doc with node := ⟨2 % 2 ^ 32, ['0'], ['0'], []⟩ },
       some (Event.nodeDone ⟨2 % 2 ^ 32, ['0'], ['0'], []⟩), false) ∧
    osm_parse_ingest parse_in_doc (waySelfLine 2) =
      ({ parse_in_doc with way := ⟨2 % 2 ^ 32, [], []⟩ }, none, false) ∧
    osm_parse_ingest parse_in_doc (relSelfLine 2) =
      ({ parse_in_doc with relation := ⟨2 % 2 ^ 32, [], [], []⟩ }, none, false) :=
  selfclosing_callbacks_amended parse_in_doc rfl rfl rfl rfl 2

theorem flagsOk_atMostOne {p : OsmParse} (h : flagsOk p) : atMostOneFlag p := by
  rcases h with ⟨h1, h2, h3⟩ | ⟨h1, h2, h3⟩ | ⟨h1, h2, h3⟩ | ⟨h1, h2, h3⟩ <;>
    exact ⟨fun hc => by simp_all, fun hc => by simp_all⟩

set_option maxHeartbeats 1000000 in
theorem ingest_preserves_flagsOk (p : OsmParse) (line : List Char) (h : flagsOk p) :
    flagsOk (osm_parse_ingest p line).1 := by
  cases hext : extractTag line with
  | none => simpa [osm_parse_ingest, hext] using h
  | some t =>
    obtain ⟨endTag, name, attr⟩ := t
    rcases h with ⟨h1, h2, h3⟩ | ⟨h1, h2, h3⟩ | ⟨h1, h2, h3⟩ | ⟨h1, h2, h3⟩ <;>
      by_cases ho : p.in_osm = false <;>
        simp only [osm_parse_ingest, hext, h1, h2, h3, ho, if_true, if_false,
          Bool.false_eq_true, Bool.true_eq_false] <;>
          repeat' split
    all_goals simp_all [flagsOk]

theorem ingestAll_flagsOk (lines : List (List Char)) :
    ∀ p, flagsOk p → flagsOk (ingestAll p lines) := by
  induction lines with
  | nil => intro p h; exact h
  | cons line rest ih =>
    intro p h
    exact ih _ (ingest_preserves_flagsOk p line h)

/-- C10: in every parser state reachable from the initial state by
ingesting any line sequence, at most one of the `in_node`, `in_way`,
`in_relation` flags is set; and while one of them is set, a line whose
extracted tag is a (non-closing) feature opening tag of any kind leaves
the parser state unchanged — no nested in-progress feature is started
and no callback fires. -/
theorem parser_nesting_invariant :
    (∀ lines : List (List Char), atMostOneFlag (ingestAll osm_parse_init lines)) ∧
    (∀ (p : OsmParse) (line : List Char) (name attr : List Char),
      (p.in_node = true ∨ p.in_way = true ∨ p.in_relation = true) →
      extractTag line = some (false, name, attr) →
      (name = ['n', 'o', 'd', 'e'] ∨ name = ['w', 'a', 'y'] ∨
       name = ['r', 'e', 'l', 'a', 't', 'i', 'o', 'n']) →
      osm_parse_ingest p line = (p, none, false)) := by
  constructor
  · intro lines
    exact flagsOk_atMostOne
      (ingestAll_flagsOk lines osm_parse_init (Or.inl (by simp [osm_parse_init])))
  · intro p line name attr hflag hext hname
    unfold osm_parse_ingest
    rw [hext]
    rcases hname with rfl | rfl | rfl <;>
      by_cases h1 : p.in_osm = false <;>
        by_cases h2 : p.in_node = true <;>
          by_cases h3 : p.in_way = true <;>
            by_cases h4 : p.in_relation = true <;>
              simp_all

/-- Witness for C10: invariant after ingesting an open-way prefix, and a
nested `<node id="2" ...>` line inside an open way leaving the state
unchanged. -/
theorem parser_nesting_invariant_witness :
    atMostOneFlag (ingestAll osm_parse_init [osmOpenLine, wayOpenLine 1]) ∧
    osm_parse_ingest { parse_in_doc with in_way := true } (nodeOpenLine 2) =
      ({ parse_in_doc with in_way := true }, none, false) :=
  ⟨parser_nesting_invariant.1 [osmOpenLine, wayOpenLine 1],
   parser_nesting_invariant.2 { parse_in_doc with in_way := true } (nodeOpenLine 2)
     ['n', 'o', 'd', 'e'] (idAttr 2 nodeOpenTail)
     (Or.inr (Or.inl rfl)) (by decide) (Or.inl rfl)⟩

/-!
Claims C3 (unescape of unrecognised sequences), C4 (sortedness of
finalised ID sets), C7 (read-line outcomes).
-/

/-- C3 counterexample: the input `gxyz` just past an `&` spells no
recognised entity, yet `deescape_xml` does not return a literal `&`
leaving the cursor in place: the C switch dispatches on the first
character alone (`'g'` ⇒ `&gt;`), returns `>` and advances by three,
consuming `gxy`. -/
theorem deescape_unrecognised_g_decoded :
    isEntityStart ['g', 'x', 'y', 'z'] = false ∧
    deescape_xml ['g', 'x', 'y', 'z'] = ('>', ['z']) ∧
    ¬deescape_xml ['g', 'x', 'y', 'z'] = ('&', ['g', 'x', 'y', 'z']) := by
  decide

/-- C3 amended: a sequence after `&` is passed through as a literal `&`
without advancing the cursor only when its first character is none of
`a`, `g`, `l`, `q`; when it is one of those, `deescape_xml` decides from
the first one or two characters alone and advances by the full entity
length without verifying the remaining characters.  The five recognised
entities are still decoded correctly, and `&foo;` passes through
unchanged as in the claim's example. -/
theorem deescape_amended (l : List Char) :
    ((¬l.head? = some 'a' ∧ ¬l.head? = some 'g' ∧ ¬l.head? = some 'l' ∧
      ¬l.head? = some 'q') → deescape_xml l = ('&', l)) ∧
    (∀ t, deescape_xml ('a' :: 'm' :: 'p' :: ';' :: t) = ('&', t)) ∧
    (∀ t, deescape_xml ('a' :: 'p' :: 'o' :: 's' :: ';' :: t) = ('\'', t)) ∧
    (∀ t, deescape_xml ('g' :: 't' :: ';' :: t) = ('>', t)) ∧
    (∀ t, deescape_xml ('l' :: 't' :: ';' :: t) = ('<', t)) ∧
    (∀ t, deescape_xml ('q' :: 'u' :: 'o' :: 't' :: ';' :: t) = ('"', t)) ∧
    deescape_xml ('f' :: 'o' :: 'o' :: ';' :: []) = ('&', 'f' :: 'o' :: 'o' :: ';' :: []) := by
  refine ⟨?_, fun t => rfl, fun t => rfl, fun t => rfl, fun t => rfl, fun t => rfl, rfl⟩
  rintro ⟨ha, hg, hl, hq⟩
  unfold deescape_xml
  split <;> first | rfl | (exfalso; simp_all)

/-- Witness for the amended C3 at the input `x;`. -/
theorem deescape_amended_witness :
    deescape_xml ['x', ';'] = ('&', ['x', ';']) :=
  (deescape_amended ['x', ';']).1 (by decide)

/-- C4 (code bug): finalising the ID set accumulated as `[0, 2^31 + 1]`
yields `[2^31 + 1, 0]`, which is not strictly increasing.  `cmp_id`
computes `(int)aa - bb` on C `unsigned int` operands; the unsigned
difference wraps, so for IDs differing by at least `2^31` the comparator
inverts the order and `qsort` leaves a descending pair; `bsearch` over
the same comparator is equally broken.  The claim (strictly ascending
after finalisation, including IDs at or above `2^31`) states the clear
intent — the header itself plans 64-bit IDs — and the comparator is the
slip.  The empty-set case additionally finalises to a one-element array
whose cell was never written (vacuously sorted). -/
theorem finalize_not_ascending_above_2pow31 :
    finalize 0 [0, 2 ^ 31 + 1] = [2 ^ 31 + 1, 0] ∧
    ¬List.Chain' (fun a b : Nat => a < b) [2 ^ 31 + 1, 0] ∧
    (∀ junk : Nat, finalize junk [] = [junk]) := by
  refine ⟨by decide, ?_, fun junk => rfl⟩
  simp [List.chain'_cons]

theorem osm_planet_readln_go_zero :
    ∀ (s acc : List Char) (out : Nat × List Char × List Char),
      osm_planet_readln_go s acc = some out → out.1 = 0 := by
  intro s
  induction s with
  | nil => intro acc out h; exact absurd h (by simp [osm_planet_readln_go])
  | cons c rest ih =>
    intro acc out h
    unfold osm_planet_readln_go at h
    split_ifs at h with h1 h2
    · exact ih [] out h
    · injection h with h'
      rw [← h']
    · exact ih (c :: acc) out h

/-- C7 (code bug): the body of `osm_planet_readln` contains a single
`return 0`; every call that returns yields outcome 0, and when the
decompressed stream is exhausted the call never returns — the consumer
blocks forever in `pthread_cond_wait` on a fill that never comes,
modelled as `none` — instead of producing the end-of-stream outcome 2
(or error outcome 1) that `osm.h` documents and `main` tests for. -/
theorem readln_never_signals_eof :
    osm_planet_readln [] = none ∧
    (∀ (s : List Char) (out : Nat × List Char × List Char),
      osm_planet_readln s = some out → out.1 = 0) :=
  ⟨rfl, fun s out h => osm_planet_readln_go_zero s [] out h⟩

/-- Witness for C7: a one-line stream returns with outcome 0. -/
theorem readln_never_signals_eof_witness :
    osm_planet_readln ['a', '\n'] = some (0, ['a'], []) ∧ (0 : Nat) = 0 :=
  ⟨by decide, readln_never_signals_eof.2 ['a', '\n'] (0, ['a'], []) (by decide)⟩

/-!
Claim C8: idempotence of finalisation.
-/

theorem cmpLe_total {a b : Nat} (h : cmpLe a b = false) : cmpLe b a = true := by
  have hab : ¬cmp_id a b ≤ 0 := by simpa [cmpLe] using h
  suffices hba : cmp_id b a ≤ 0 by simpa [cmpLe]
  unfold cmp_id at hab ⊢
  have hAlt : a % 2 ^ 32 < 2 ^ 32 := Nat.mod_lt _ (by norm_num)
  have hBlt : b % 2 ^ 32 < 2 ^ 32 := Nat.mod_lt _ (by norm_num)
  simp only at hab ⊢
  split at hab <;> split <;> omega

theorem insertCmp_ne_nil (a : Nat) (l : List Nat) : insertCmp a l ≠ [] := by
  cases l with
  | nil => simp [insertCmp]
  | cons b t =>
    unfold insertCmp
    split <;> simp

theorem chain'_insertCmp {l : List Nat} (a : Nat)
    (h : List.Chain' (fun x y => cmpLe x y = true) l) :
    List.Chain' (fun x y => cmpLe x y = true) (insertCmp a l) := by
  induction l with
  | nil => simp [insertCmp]
  | cons b t ih =>
    unfold insertCmp
    split
    · rename_i hab
      exact List.chain'_cons.mpr ⟨hab, h⟩
    · rename_i hab
      have hba : cmpLe b a = true := cmpLe_total (by simpa using hab)
      have ht : List.Chain' (fun x y => cmpLe x y = true) t := h.tail
      refine List.chain'_cons'.mpr ⟨?_, ih ht⟩
      intro x hx
      cases t with
      | nil =>
        simp [insertCmp] at hx
        subst hx
        exact hba
      | cons c u =>
        rw [insertCmp] at hx
        split at hx
        · simp at hx
          subst hx
          exact hba
        · simp at hx
          subst hx
          exact (List.chain'_cons.mp h).1

theorem sortC_chain' (l : List Nat) :
    List.Chain' (fun x y => cmpLe x y = true) (sortC l) := by
  induction l with
  | nil => simp [sortC]
  | cons a t ih => exact chain'_insertCmp a ih

theorem sortC_of_chain' {l : List Nat}
    (h : List.Chain' (fun x y => cmpLe x y = true) l) : sortC l = l := by
  induction l with
  | nil => rfl
  | cons a t ih =>
    rw [sortC, ih h.tail]
    cases t with
    | nil => rfl
    | cons b u =>
      rw [insertCmp, if_pos (List.chain'_cons.mp h).1]

theorem chain'_dedupAdjGo :
    ∀ (l : List Nat) (prev : Nat),
      List.Chain' (fun x y => cmpLe x y = true) (prev :: l) →
      List.Chain' (fun x y => cmpLe x y = true) (prev :: dedupAdjGo prev l) := by
  intro l
  induction l with
  | nil => intro prev h; simp only [dedupAdjGo]; exact h
  | cons c r ih =>
    intro prev h
    rw [dedupAdjGo]
    split
    · rename_i hcp
      subst hcp
      exact ih c h.tail
    · exact List.chain'_cons.mpr ⟨(List.chain'_cons.mp h).1, ih c h.tail⟩

theorem ne_chain_dedupAdjGo :
    ∀ (l : List Nat) (prev : Nat),
      List.Chain' (fun x y : Nat => ¬x = y) (prev :: dedupAdjGo prev l) := by
  intro l
  induction l with
  | nil => simp [dedupAdjGo]
  | cons c r ih =>
    intro prev
    rw [dedupAdjGo]
    split
    · rename_i hcp
      subst hcp
      exact ih c
    · rename_i hcp
      exact List.chain'_cons.mpr ⟨fun hpc => hcp hpc.symm, ih c⟩

theorem dedupAdjGo_of_ne_chain :
    ∀ (l : List Nat) (prev : Nat),
      List.Chain' (fun x y : Nat => ¬x = y) (prev :: l) → dedupAdjGo prev l = l := by
  intro l
  induction l with
  | nil => intro prev _; rfl
  | cons c r ih =>
    intro prev h
    rw [dedupAdjGo, if_neg (fun hcp => (List.chain'_cons.mp h).1 hcp.symm), ih c h.tail]

/-- C8: applying the finalisation of `main` (qsort with `cmp_id`,
single-pass adjacent-duplicate removal, compaction) twice yields the same
sequence as applying it once, for every accumulated ID list, including
the empty list (where the C code produces a one-element array of an
indeterminate cell, modelled by `junk`, which the second finalisation
preserves). -/
theorem finalize_idempotent (junk : Nat) (l : List Nat) :
    finalize junk (finalize junk l) = finalize junk l := by
  cases l with
  | nil => rfl
  | cons a t =>
    have hchain := sortC_chain' (a :: t)
    obtain ⟨b, u, hbu⟩ : ∃ b u, sortC (a :: t) = b :: u := by
      cases hs : sortC (a :: t) with
      | nil => exact absurd hs (by rw [sortC]; exact insertCmp_ne_nil a (sortC t))
      | cons b u => exact ⟨b, u, rfl⟩
    rw [hbu] at hchain
    have h1 : finalize junk (a :: t) = b :: dedupAdjGo b u := by
      rw [finalize, hbu, dedupAdj]
    rw [h1, finalize]
    have hchain2 := chain'_dedupAdjGo u b hchain
    rw [sortC_of_chain' hchain2, dedupAdj, dedupAdjGo_of_ne_chain _ _ (ne_chain_dedupAdjGo u b)]

/-!
Claim C6: filter matching.
-/

theorem check_tags_pattern_iff (c w : OsmTag) (hok : okPattern w) :
    (if w.key.head? = some '*' then w.value == c.value
     else if w.value.head? = some '*' then w.key == c.key
     else w.key == c.key && w.value == c.value) = true ↔
    claim_satisfies c w = true := by
  obtain ⟨hk, hv, hnb⟩ := hok
  by_cases h1 : w.key.head? = some '*'
  · have hkey : w.key = ['*'] := hk h1
    have hvne : ¬w.value = ['*'] := fun hc => hnb ⟨hkey, hc⟩
    simp only [if_pos h1, claim_satisfies, hkey]
    cases hcv : w.value == c.value <;>
      cases hck : (['*'] : List Char) == c.key <;>
        simp_all
  · have hkne : ¬w.key = ['*'] := fun hc => h1 (by rw [hc]; rfl)
    by_cases h2 : w.value.head? = some '*'
    · have hval : w.value = ['*'] := hv h2
      simp only [if_neg h1, if_pos h2, claim_satisfies, hval]
      cases hck : w.key == c.key <;>
        cases hcv : (['*'] : List Char) == c.value <;>
          simp_all
    · have hvne : ¬w.value = ['*'] := fun hc => h2 (by rw [hc]; rfl)
      simp only [if_neg h1, if_neg h2, claim_satisfies]
      cases hck : w.key == c.key <;>
        cases hcv : w.value == c.value <;>
          simp_all

/-- C6 counterexample: the claim's wildcard reading fails on patterns
whose side merely begins with `*`: `check_tags` treats the pattern
`(k, *x)` as "value wildcard" (it tests only `value[0]`) and accepts the
tag `(k, v)`, which satisfies none of the claim's three match forms; and
for the double-wildcard pattern `(*, *)` the tag `(*, v)` satisfies the
claim's third form but `check_tags` rejects it (the key-wildcard branch
shadows the value-wildcard branch). -/
theorem check_tags_wildcard_mismatch :
    check_tags [⟨['k'], ['v']⟩] [⟨['k'], ['*', 'x']⟩] = true ∧
    claim_satisfies ⟨['k'], ['v']⟩ ⟨['k'], ['*', 'x']⟩ = false ∧
    claim_satisfies ⟨['*'], ['v']⟩ ⟨['*'], ['*']⟩ = true ∧
    check_tags [⟨['*'], ['v']⟩] [⟨['*'], ['*']⟩] = false := by
  decide

/-- C6 amended: for filters in which a pattern side beginning with `*`
is exactly the wildcard `*` and no pattern has both sides wildcard,
`check_tags` returns true iff some tag of the feature satisfies some
pattern in the claim's sense (exact key+value match, value match under a
`*` key side, key match under a `*` value side); and the claim's three
concrete instances hold for the program's filter: `(railway, station)`
matches, `(route, train)` matches, `(name, Central)` matches neither
pattern. -/
theorem check_tags_amended :
    (∀ (tags wanted : List OsmTag), (∀ w ∈ wanted, okPattern w) →
      (check_tags tags wanted = true ↔
        ∃ c ∈ tags, ∃ w ∈ wanted, claim_satisfies c w = true)) ∧
    check_tags [⟨['r', 'a', 'i', 'l', 'w', 'a', 'y'], ['s', 't', 'a', 't', 'i', 'o', 'n']⟩]
      filterTags = true ∧
    check_tags [⟨['r', 'o', 'u', 't', 'e'], ['t', 'r', 'a', 'i', 'n']⟩] filterTags = true ∧
    check_tags [⟨['n', 'a', 'm', 'e'], ['C', 'e', 'n', 't', 'r', 'a', 'l']⟩] filterTags
      = false := by
  refine ⟨?_, by decide, by decide, by decide⟩
  intro tags wanted hok
  simp only [check_tags, List.any_eq_true]
  constructor
  · rintro ⟨c, hc, w, hw, hcw⟩
    exact ⟨c, hc, w, hw, (check_tags_pattern_iff c w (hok w hw)).mp hcw⟩
  · rintro ⟨c, hc, w, hw, hcw⟩
    exact ⟨c, hc, w, hw, (check_tags_pattern_iff c w (hok w hw)).mpr hcw⟩

/-- Witness for the amended C6 on a one-tag feature and one-pattern
filter. -/
theorem check_tags_amended_witness :
    check_tags [⟨['a'], ['b']⟩] [⟨['a'], ['b']⟩] = true ↔
      ∃ c ∈ ([⟨['a'], ['b']⟩] : List OsmTag),
        ∃ w ∈ ([⟨['a'], ['b']⟩] : List OsmTag), claim_satisfies c w = true :=
  check_tags_amended.1 [⟨['a'], ['b']⟩] [⟨['a'], ['b']⟩] (by decide)

/-!
Claim C5: entity-codec round trip.
-/

theorem rsg_quote (f : Nat) (rest : List Char) (len : Nat) :
    read_string_go (f + 1) ('"' :: rest) len = ([], rest) := rfl

theorem rsg_amp (f : Nat) (rest : List Char) (len : Nat) (h : len < 255) :
    read_string_go (f + 1) ('&' :: rest) len =
      ((deescape_xml rest).1 :: (read_string_go f (deescape_xml rest).2 (len + 1)).1,
       (read_string_go f (deescape_xml rest).2 (len + 1)).2) := by
  simp [read_string_go, Nat.not_le.mpr h]

theorem rsg_other (f : Nat) (c : Char) (rest : List Char) (len : Nat)
    (hq : ¬c = '"') (ha : ¬c = '&') (h : len < 255) :
    read_string_go (f + 1) (c :: rest) len =
      (c :: (read_string_go f rest (len + 1)).1, (read_string_go f rest (len + 1)).2) := by
  simp [read_string_go, hq, ha, Nat.not_le.mpr h]

theorem hasAmpHash_cons {c : Char} {s : List Char} (h : hasAmpHash (c :: s) = false) :
    hasAmpHash s = false ∧ ¬(c = '&' ∧ s.head? = some '#') := by
  simp only [hasAmpHash, Bool.or_eq_false_iff, Bool.and_eq_false_iff] at h
  refine ⟨h.2, ?_⟩
  rintro ⟨rfl, hh⟩
  rcases h.1 with h' | h'
  · simp at h'
  · rw [hh] at h'
    simp at h'

theorem esc_char_length_pos (c : Char) (next : Option Char) :
    1 ≤ (esc_char c next).length := by
  unfold esc_char
  repeat' split
  all_goals simp

theorem print_xml_length (s : List Char) : s.length ≤ (print_xml s).length := by
  induction s with
  | nil => simp [print_xml]
  | cons c s' ih =>
    rw [print_xml]
    have := esc_char_length_pos c s'.head?
    simp only [List.length_cons, List.length_append]
    omega

theorem read_string_go_print_xml :
    ∀ (s tail : List Char) (len fuel : Nat),
      len + s.length ≤ 255 → hasAmpHash s = false → s.length < fuel →
      read_string_go fuel (print_xml s ++ '"' :: tail) len = (s, tail) := by
  intro s
  induction s with
  | nil =>
    intro tail len fuel _ _ hfuel
    cases fuel with
    | zero => omega
    | succ f => simp [print_xml, rsg_quote]
  | cons c s' ih =>
    intro tail len fuel hlen hah hfuel
    cases fuel with
    | zero => omega
    | succ f =>
      obtain ⟨hah', hnoth⟩ := hasAmpHash_cons hah
      have hIH := ih tail (len + 1) f (by simp at hlen ⊢; omega) hah'
        (by simp at hfuel ⊢; omega)
      have hl255 : len < 255 := by simp at hlen; omega
      by_cases h1 : c = '\''
      · subst h1
        have hpx : print_xml ('\'' :: s') ++ '"' :: tail =
            '&' :: ('a' :: 'p' :: 'o' :: 's' :: ';' :: (print_xml s' ++ '"' :: tail)) := by
          simp [print_xml, esc_char]
        rw [hpx, rsg_amp f _ len hl255]
        have hde : deescape_xml ('a' :: 'p' :: 'o' :: 's' :: ';' :: (print_xml s' ++ '"' :: tail)) =
            ('\'', print_xml s' ++ '"' :: tail) := rfl
        rw [hde]
        simp [hIH]
      · by_cases h2 : c = '"'
        · subst h2
          have hpx : print_xml ('"' :: s') ++ '"' :: tail =
              '&' :: ('q' :: 'u' :: 'o' :: 't' :: ';' :: (print_xml s' ++ '"' :: tail)) := by
            simp [print_xml, esc_char]
          rw [hpx, rsg_amp f _ len hl255]
          have hde : deescape_xml
              ('q' :: 'u' :: 'o' :: 't' :: ';' :: (print_xml s' ++ '"' :: tail)) =
              ('"', print_xml s' ++ '"' :: tail) := rfl
          rw [hde]
          simp [hIH]
        · by_cases h3 : c = '<'
          · subst h3
            have hpx : print_xml ('<' :: s') ++ '"' :: tail =
                '&' :: ('l' :: 't' :: ';' :: (print_xml s' ++ '"' :: tail)) := by
              simp [print_xml, esc_char]
            rw [hpx, rsg_amp f _ len hl255]
            have hde : deescape_xml ('l' :: 't' :: ';' :: (print_xml s' ++ '"' :: tail)) =
                ('<', print_xml s' ++ '"' :: tail) := rfl
            rw [hde]
            simp [hIH]
          · by_cases h4 : c = '>'
            · subst h4
              have hpx : print_xml ('>' :: s') ++ '"' :: tail =
                  '&' :: ('g' :: 't' :: ';' :: (print_xml s' ++ '"' :: tail)) := by
                simp [print_xml, esc_char]
              rw [hpx, rsg_amp f _ len hl255]
              have hde : deescape_xml ('g' :: 't' :: ';' :: (print_xml s' ++ '"' :: tail)) =
                  ('>', print_xml s' ++ '"' :: tail) := rfl
              rw [hde]
              simp [hIH]
            · by_cases h5 : c = '&'
              · subst h5
                have hne : ¬s'.head? = some '#' := fun hc => hnoth ⟨rfl, hc⟩
                have hpx : print_xml ('&' :: s') ++ '"' :: tail =
                    '&' :: ('a' :: 'm' :: 'p' :: ';' :: (print_xml s' ++ '"' :: tail)) := by
                  simp [print_xml, esc_char, hne]
                rw [hpx, rsg_amp f _ len hl255]
                have hde : deescape_xml
                    ('a' :: 'm' :: 'p' :: ';' :: (print_xml s' ++ '"' :: tail)) =
                    ('&', print_xml s' ++ '"' :: tail) := rfl
                rw [hde]
                simp [hIH]
              · have hpx : print_xml (c :: s') ++ '"' :: tail =
                    c :: (print_xml s' ++ '"' :: tail) := by
                  simp [print_xml, esc_char, h1, h2, h3, h4, h5]
                rw [hpx, rsg_other f c _ len h2 h5 hl255]
                simp [hIH]

theorem wellEscapedGo_print_xml :
    ∀ (s : List Char) (fuel : Nat), (print_xml s).length < fuel → hasAmpHash s = false →
      wellEscapedGo fuel (print_xml s) = true := by
  intro s
  induction s with
  | nil =>
    intro fuel _ _
    cases fuel with
    | zero => rfl
    | succ f => rfl
  | cons c s' ih =>
    intro fuel hfuel hah
    obtain ⟨hah', hnoth⟩ := hasAmpHash_cons hah
    cases fuel with
    | zero =>
      exfalso
      have := esc_char_length_pos c s'.head?
      rw [print_xml] at hfuel
      simp only [List.length_append] at hfuel
      omega
    | succ f =>
      have hlen : (print_xml (c :: s')).length < f + 1 := hfuel
      rw [print_xml] at hlen
      simp only [List.length_append] at hlen
      by_cases h1 : c = '\''
      · subst h1
        have hpx : print_xml ('\'' :: s') =
            '&' :: 'a' :: 'p' :: 'o' :: 's' :: ';' :: print_xml s' := by
          simp [print_xml, esc_char]
        rw [hpx]
        show wellEscapedGo (f + 1) _ = true
        simp only [wellEscapedGo, entityAfterAmp, if_true]
        exact ih f (by simp [esc_char] at hlen ⊢; omega) hah'
      · by_cases h2 : c = '"'
        · subst h2
          have hpx : print_xml ('"' :: s') =
              '&' :: 'q' :: 'u' :: 'o' :: 't' :: ';' :: print_xml s' := by
            simp [print_xml, esc_char]
          rw [hpx]
          simp only [wellEscapedGo, entityAfterAmp, if_true]
          exact ih f (by simp [esc_char] at hlen ⊢; omega) hah'
        · by_cases h3 : c = '<'
          · subst h3
            have hpx : print_xml ('<' :: s') = '&' :: 'l' :: 't' :: ';' :: print_xml s' := by
              simp [print_xml, esc_char]
            rw [hpx]
            simp only [wellEscapedGo, entityAfterAmp, if_true]
            exact ih f (by simp [esc_char] at hlen ⊢; omega) hah'
          · by_cases h4 : c = '>'
            · subst h4
              have hpx : print_xml ('>' :: s') = '&' :: 'g' :: 't' :: ';' :: print_xml s' := by
                simp [print_xml, esc_char]
              rw [hpx]
              simp only [wellEscapedGo, entityAfterAmp, if_true]
              exact ih f (by simp [esc_char] at hlen ⊢; omega) hah'
            · by_cases h5 : c = '&'
              · subst h5
                have hne : ¬s'.head? = some '#' := fun hc => hnoth ⟨rfl, hc⟩
                have hpx : print_xml ('&' :: s') =
                    '&' :: 'a' :: 'm' :: 'p' :: ';' :: print_xml s' := by
                  simp [print_xml, esc_char, hne]
                rw [hpx]
                simp only [wellEscapedGo, entityAfterAmp, if_true]
                exact ih f (by simp [esc_char, hne] at hlen ⊢; omega) hah'
              · have hpx : print_xml (c :: s') = c :: print_xml s' := by
                  simp [print_xml, esc_char, h1, h2, h3, h4, h5]
                rw [hpx]
                simp only [wellEscapedGo]
                rw [if_neg (by tauto), if_neg h5]
                exact ih f (by simp [esc_char, h1, h2, h3, h4, h5] at hlen ⊢; omega) hah'

/-- C5: for text of at most 255 characters containing no literal `&#`
sequence, decoding the escaped text with `read_string` (stopping at the
closing quote that follows it in an attribute) recovers the text exactly
and leaves the cursor just past the quote, and the escaped text contains
no raw `' " < > &` outside the five recognised entities. -/
theorem escape_unescape_roundtrip (s tail : List Char)
    (hlen : s.length ≤ 255) (hah : hasAmpHash s = false) :
    read_string (print_xml s ++ '"' :: tail) 0 = (s, tail) ∧
    wellEscaped (print_xml s) = true := by
  constructor
  · unfold read_string
    apply read_string_go_print_xml s tail 0 _ (by omega) hah
    have h1 := print_xml_length s
    simp only [List.length_append, List.length_cons]
    omega
  · exact wellEscapedGo_print_xml s ((print_xml s).length + 1) (by omega) hah

/-- Witness for C5 on the text `a&<"'`. -/
theorem escape_unescape_roundtrip_witness :
    read_string (print_xml ['a', '&', '<', '"', '\''] ++ '"' :: []) 0 =
      (['a', '&', '<', '"', '\''], []) ∧
    wellEscaped (print_xml ['a', '&', '<', '"', '\'']) = true :=
  escape_unescape_roundtrip ['a', '&', '<', '"', '\''] [] (by norm_num) (by decide)
